import Mathlib

/-!
Shallow embedding of the Wigor timetable scraper (fetch_edt_requests.py).

Python strings are modelled as Lean `String` (lists of unicode characters),
Python floats coming from `left:N%` style offsets as exact rationals `ℚ`,
`datetime.date` as a `PDate` structure with Gregorian calendar rules, and
Python dicts as insertion-ordered association lists.
-/

-- The Batteries rational primitives are `@[irreducible]`, which blocks
-- `decide` on concrete offset arithmetic; restore the default reducibility.
attribute [local semireducible] Rat.add Rat.sub Rat.mul Rat.inv Rat.ofScientific

namespace EDT

/-- Characters stripped by Python `str.strip()` / matched by `str.isspace()`. -/
def pyWsChars : List Char :=
  [' ', '\t', '\n', '\r', '\x0b', '\x0c',
   '\x1c', '\x1d', '\x1e', '\x1f', '\x85', '\xa0',
   '\u1680', '\u2000', '\u2001', '\u2002', '\u2003', '\u2004', '\u2005',
   '\u2006', '\u2007', '\u2008', '\u2009', '\u200a',
   '\u2028', '\u2029', '\u202f', '\u205f', '\u3000']

def pyIsSpace (c : Char) : Bool := pyWsChars.contains c

/-- The character class of `re.sub(r"[ \t\r\f\v]+", " ", ...)` in `text_clean`:
space, tab, carriage return, form feed, vertical tab — notably NOT newline. -/
def clsWs (c : Char) : Bool := [' ', '\t', '\r', '\x0c', '\x0b'].contains c

def pyStripL (l : List Char) : List Char := l.dropWhile pyIsSpace

def pyStripR (l : List Char) : List Char := (l.reverse.dropWhile pyIsSpace).reverse

def pyStripList (l : List Char) : List Char := pyStripR (pyStripL l)

/-- Python `str.strip()`. -/
def pyStrip (s : String) : String := ⟨pyStripList s.data⟩

/-- Model of `re.sub(r"[ \t\r\f\v]+", " ", ...)`: collapse each maximal run
of the class characters into a single space; all other characters (newlines
included) are kept unchanged. -/
def collapseWs : List Char → List Char
  | [] => []
  | [c] => if clsWs c then [' '] else [c]
  | c :: c' :: cs =>
    if clsWs c then
      if clsWs c' then collapseWs (c' :: cs)
      else ' ' :: c' :: collapseWs cs
    else c :: collapseWs (c' :: cs)

/-- Model of `text_clean(s)`: replace non-breaking spaces by plain spaces, collapse
runs of space/tab/CR/FF/VT into single spaces, then strip both ends. -/
def text_clean (s : String) : String :=
  ⟨pyStripList (collapseWs (s.data.map fun c => if c = '\xa0' then ' ' else c))⟩

/-- Python `str.lower()` on the Latin-1 range used by the scraped labels:
ASCII A–Z and À–Þ (except ×) map to their lowercase forms. -/
def pyLowerChar (c : Char) : Char :=
  if 'A' ≤ c ∧ c ≤ 'Z' then Char.ofNat (c.toNat + 32)
  else if '\xc0' ≤ c ∧ c ≤ '\xde' ∧ c ≠ '\xd7' then Char.ofNat (c.toNat + 32)
  else c

def pyLower (s : String) : String := ⟨s.data.map pyLowerChar⟩

/-- Python `str.splitlines()` restricted to the line boundaries that can
occur in scraped text: LF, CR, CRLF, VT, FF (a CRLF pair counts as one
boundary). -/
def splitlinesAux (cur : List Char) : List Char → List (List Char)
  | [] => [cur]
  | '\r' :: '\n' :: cs => cur :: splitlinesAux [] cs
  | c :: cs =>
    if c = '\n' ∨ c = '\r' ∨ c = '\x0b' ∨ c = '\x0c' then
      cur :: splitlinesAux [] cs
    else splitlinesAux (cur ++ [c]) cs

/-- Model of Python `str.splitlines()` (no trailing empty line for a trailing boundary). -/
def pySplitlines (s : String) : List String :=
  match s.data with
  | [] => []
  | l =>
    let parts := splitlinesAux [] l
    let parts := if parts.getLast? = some [] then parts.dropLast else parts
    parts.map fun cs => ⟨cs⟩

/-- The `FR_MONTHS` table: French month names (accented and unaccented) to
month numbers. -/
def FR_MONTHS : List (String × Nat) :=
  [("janvier", 1), ("février", 2), ("fevrier", 2), ("mars", 3),
   ("avril", 4), ("mai", 5), ("juin", 6), ("juillet", 7),
   ("août", 8), ("aout", 8), ("septembre", 9), ("octobre", 10),
   ("novembre", 11), ("décembre", 12), ("decembre", 12)]

/-- The `DOW_FR` table: French weekday names, Monday first. -/
def DOW_FR : List String :=
  ["lundi", "mardi", "mercredi", "jeudi", "vendredi", "samedi", "dimanche"]

/-- Gregorian leap-year rule (as implemented by `datetime.date`). -/
def isLeap (y : Nat) : Bool := y % 4 = 0 ∧ (y % 100 ≠ 0 ∨ y % 400 = 0)

def daysInMonth (y m : Nat) : Nat :=
  if m = 2 then (if isLeap y then 29 else 28)
  else if [4, 6, 9, 11].contains m then 30 else 31

/-- Model of Python `datetime.date` (year, month, day). -/
structure PDate where
  year : Nat
  month : Nat
  day : Nat
deriving DecidableEq, Repr

def nextDay (d : PDate) : PDate :=
  if d.day < daysInMonth d.year d.month then ⟨d.year, d.month, d.day + 1⟩
  else if d.month < 12 then ⟨d.year, d.month + 1, 1⟩
  else ⟨d.year + 1, 1, 1⟩

/-- Model of `d + dt.timedelta(days=n)`. -/
def addDays (d : PDate) : Nat → PDate
  | 0 => d
  | n + 1 => nextDay (addDays d n)

-- ---------- regex machinery for parse_day_header_date ----------

def isDigitChar (c : Char) : Bool := '0' ≤ c ∧ c ≤ '9'

/-- The character class `[a-zéèêàâîôûùç]` of the month token in
`parse_day_header_date`. -/
def monthTokChar (c : Char) : Bool :=
  ('a' ≤ c ∧ c ≤ 'z') ∨
  ['\xe9', '\xe8', '\xea', '\xe0', '\xe2', '\xee', '\xf4', '\xfb', '\xf9', '\xe7'].contains c

/-- Strip a literal off the front of a character list, returning the remainder. -/
def stripPre : List Char → List Char → Option (List Char)
  | [], l => some l
  | _ :: _, [] => none
  | p :: ps, c :: cs => if c = p then stripPre ps cs else none

/-- Try the alternatives of a regex alternation in order at the current position. -/
def matchAltAt (alts : List String) (l : List Char) : Option (List Char) :=
  match alts with
  | [] => none
  | a :: rest =>
    match stripPre a.data l with
    | some r => some r
    | none => matchAltAt rest l

/-- Greedy match of one-or-more regex whitespace characters. -/
def matchWs1 (l : List Char) : Option (List Char) :=
  match l with
  | [] => none
  | c :: cs => if pyIsSpace c then some (cs.dropWhile pyIsSpace) else none

/-- Match of the combined subpattern `(\d{1,2})\s+`: greedy on the digits (two
first, then backtrack to one), returning the numeric day and the remainder
after the whitespace. -/
def matchDayNumWs (l : List Char) : Option (Nat × List Char) :=
  match l with
  | [] => none
  | c1 :: rest1 =>
    if isDigitChar c1 then
      match rest1 with
      | c2 :: rest2 =>
        if isDigitChar c2 then
          match matchWs1 rest2 with
          | some r => some ((c1.toNat - 48) * 10 + (c2.toNat - 48), r)
          | none =>
            match matchWs1 rest1 with
            | some r => some (c1.toNat - 48, r)
            | none => none
        else
          match matchWs1 rest1 with
          | some r => some (c1.toNat - 48, r)
          | none => none
      | [] => none
    else none

/-- Match the full day-header pattern at the current position, returning the
day number and the greedy month token. -/
def dayHeaderAt (l : List Char) : Option (Nat × List Char) :=
  match matchAltAt DOW_FR l with
  | none => none
  | some r1 =>
    match matchWs1 r1 with
    | none => none
    | some r2 =>
      match matchDayNumWs r2 with
      | none => none
      | some (day, r3) =>
        let tok := r3.takeWhile monthTokChar
        if tok = [] then none else some (day, tok)

/-- Leftmost search (`re.search`) for the day-header pattern. -/
def searchDayHeader : List Char → Option (Nat × List Char)
  | [] => none
  | c :: cs =>
    match dayHeaderAt (c :: cs) with
    | some res => some res
    | none => searchDayHeader cs

/-- Accent-stripping substitutions applied to the month token. -/
def stripAccent (c : Char) : Char :=
  if c = '\xe9' ∨ c = '\xe8' ∨ c = '\xea' then 'e'
  else if c = '\xe0' ∨ c = '\xe2' then 'a'
  else if c = '\xee' then 'i'
  else if c = '\xf4' then 'o'
  else if c = '\xfb' ∨ c = '\xf9' then 'u'
  else if c = '\xe7' then 'c'
  else c

/-- Model of `parse_day_header_date`: normalize and lowercase the label, search
for "weekday day month-name", strip accents from the month token, look the
month up in `FR_MONTHS`, and validate via `dt.date(1900, month, day)`.
Returns the (month, day) pair of the resulting date. -/
def parse_day_header_date (label : String) : Option (Nat × Nat) :=
  let lab := pyLower (text_clean label)
  match searchDayHeader lab.data with
  | none => none
  | some (day, montok) =>
    match FR_MONTHS.lookup (⟨montok.map stripAccent⟩ : String) with
    | none => none
    | some month =>
      if 1 ≤ day ∧ day ≤ daysInMonth 1900 month then some (month, day) else none

-- ---------- positional grid model ----------

/-- Model of `int(left // 100.0)`: the panel index of a left-offset. -/
def pyFloorDiv100 (x : ℚ) : ℤ := Rat.floor (x / 100)

/-- Model of `left % 100.0` (Python float modulo, result in `[0, 100)`). -/
def pyMod100 (x : ℚ) : ℚ := x - 100 * Rat.floor (x / 100)

/-- Model of Python `str.replace(old, new)` for a single-character `old`
(every `replace` in the source has a one-character pattern). -/
def pyReplaceChar (s : String) (pat : Char) (rep : String) : String :=
  ⟨(s.data.map fun c => if c = pat then rep.data else [c]).flatten⟩

/-- Model of a `div.Jour` day-header node: `left` is the value of
`parse_pct_left` applied to its style attribute (absent when the style has no
parsable percentage), `label` the text of its `td.TCJour` cell (falling back
to the whole node text), as extracted by the source. -/
structure JourDiv where
  left : Option ℚ
  label : String
deriving DecidableEq, Repr

/-- Model of a `div.Case` event node: `left` as above, `id` its id attribute,
`texts` the stripped non-empty text fragments of the node, which
`get_text(sep, strip=True)` joins with the separator. -/
structure CaseTag where
  left : Option ℚ
  id : String
  texts : List String
deriving DecidableEq, Repr

/-- Model of the parsed HTML document: the `div.Jour` nodes and the `div.Case`
nodes, each in document order. -/
structure Soup where
  jours : List JourDiv
  cases : List CaseTag
deriving DecidableEq, Repr

/-- Model of BeautifulSoup `get_text(sep, strip=True)`. -/
def getText (sep : String) (c : CaseTag) : String := String.intercalate sep c.texts

abbrev PanelItem := ℚ × String × Nat × Nat

/-- Model of `panels.setdefault(panel, []).append(item)`: insertion-ordered
dict update. -/
def panAdd (m : List (ℤ × List PanelItem)) (p : ℤ) (it : PanelItem) :
    List (ℤ × List PanelItem) :=
  match m with
  | [] => [(p, [it])]
  | (q, its) :: rest =>
    if q = p then (q, its ++ [it]) :: rest else (q, its) :: panAdd rest p it

/-- One step of the panel-partition loop of `week_panel_index_for_target`:
a day header with a parsable left offset and a resolvable calendar day is
appended to its panel; all others are skipped. -/
def panStep (m : List (ℤ × List PanelItem)) (j : JourDiv) : List (ℤ × List PanelItem) :=
  match j.left with
  | none => m
  | some left =>
    match parse_day_header_date j.label with
    | none => m
    | some (mo, da) => panAdd m (pyFloorDiv100 left) (left, j.label, mo, da)

/-- The panel-partition loop of `week_panel_index_for_target`: group the day
headers that have a parsable left offset and a resolvable calendar day by
panel index. -/
def panelsOf (jours : List JourDiv) : List (ℤ × List PanelItem) :=
  jours.foldl panStep []

/-- The 7 (month, day) pairs of the target week. -/
def targetDaysMd (monday : PDate) : Finset (Nat × Nat) :=
  ((List.range 7).map fun i => ((addDays monday i).month, (addDays monday i).day)).toFinset

/-- Panel score: size of the intersection of the panel headers' (month, day)
set with the target week's 7 (month, day) pairs, as a (Python) int. -/
def panelScore (target : PDate) (items : List PanelItem) : ℤ :=
  (((items.map fun it => it.2.2).toFinset) ∩ targetDaysMd target).card

/-- The best-panel selection loop: keep the first panel attaining each new
strictly larger score (initial best score is -1). -/
def pickBest (target : PDate) : Option ℤ × ℤ → List (ℤ × List PanelItem) → Option ℤ × ℤ
  | acc, [] => acc
  | (best, bs), (p, items) :: rest =>
    if bs < panelScore target items then pickBest target (some p, panelScore target items) rest
    else pickBest target (best, bs) rest

/-- Model of `week_panel_index_for_target`. -/
def week_panel_index_for_target (soup : Soup) (target : PDate) : Option ℤ :=
  match panelsOf soup.jours with
  | [] => none
  | panels => (pickBest target (none, -1) panels).1

/-- Model of `day_headers_for_panel`: the (left, cleaned label) pairs of the
day headers of one panel, sorted by offset (Python sorted is stable). -/
def day_headers_for_panel (soup : Soup) (panel : ℤ) : List (ℚ × String) :=
  List.insertionSort (fun a b => a.1 ≤ b.1)
    (soup.jours.filterMap fun j =>
      match j.left with
      | none => none
      | some left =>
        if pyFloorDiv100 left = panel then some (left, text_clean j.label) else none)

/-- Model of `extract_cases_for_panel`: all Case nodes of the panel except the
"avant"/"apres" sentinels. -/
def extract_cases_for_panel (soup : Soup) (panel : ℤ) : List CaseTag :=
  soup.cases.filter fun c =>
    !(decide (pyLower c.id = "avant" ∨ pyLower c.id = "apres")) &&
    (match c.left with
     | none => false
     | some left => decide (pyFloorDiv100 left = panel))

-- ---------- case field parsing ----------

/-- Separator class `[:h]` of the time pattern under `re.I`. -/
def isSepChar (c : Char) : Bool := c = ':' ∨ c = 'h' ∨ c = 'H'

/-- Match one clock literal `\d{1,2}[:h]\d{2}` at the current position,
returning the matched text and the remainder (digits greedy: two first, with
the standard backtrack to one). -/
def matchClockAt (l : List Char) : Option (List Char × List Char) :=
  match l with
  | c1 :: c2 :: rest =>
    if isDigitChar c1 then
      if isDigitChar c2 then
        match rest with
        | sep :: m1 :: m2 :: r =>
          if isSepChar sep ∧ isDigitChar m1 ∧ isDigitChar m2 then
            some ([c1, c2, sep, m1, m2], r)
          else none
        | _ => none
      else if isSepChar c2 then
        match rest with
        | m1 :: m2 :: r =>
          if isDigitChar m1 ∧ isDigitChar m2 then some ([c1, c2, m1, m2], r) else none
        | _ => none
      else none
    else none
  | _ => none

/-- Match the time-range pattern
`(\d{1,2}[:h]\d{2})\s*-\s*(\d{1,2}[:h]\d{2})` at the current position,
returning the two captured groups. -/
def matchTimeRangeAt (l : List Char) : Option (List Char × List Char) :=
  match matchClockAt l with
  | none => none
  | some (g1, r1) =>
    match r1.dropWhile pyIsSpace with
    | '-' :: r2 =>
      match matchClockAt (r2.dropWhile pyIsSpace) with
      | none => none
      | some (g2, _) => some (g1, g2)
    | _ => none

/-- Leftmost `re.search` of the time-range pattern. -/
def searchTimeRange : List Char → Option (List Char × List Char)
  | [] => none
  | c :: cs =>
    match matchTimeRangeAt (c :: cs) with
    | some r => some r
    | none => searchTimeRange cs

/-- Tail of the `_time_to_minutes` match: after the hour digits, require
`:`, two minute digits and end of string (`$` also matches before one
trailing newline). -/
def timeTail (hour : Nat) : List Char → Nat
  | ':' :: m1 :: m2 :: tail =>
    if isDigitChar m1 ∧ isDigitChar m2 ∧ (tail = [] ∨ tail = ['\n']) then
      hour * 60 + ((m1.toNat - 48) * 10 + (m2.toNat - 48))
    else 99999
  | _ => 99999

/-- Model of `_time_to_minutes`: empty or non-`^\d{1,2}:\d{2}$` strings map to
99999, otherwise hours*60+minutes (after turning `h` separators into `:`). -/
def _time_to_minutes (s : String) : Nat :=
  if s = "" then 99999
  else
    match (pyReplaceChar s (Char.ofNat 104) ":").data with
    | c1 :: rest =>
      if isDigitChar c1 then
        match rest with
        | c2 :: rest2 =>
          if isDigitChar c2 then timeTail ((c1.toNat - 48) * 10 + (c2.toNat - 48)) rest2
          else timeTail (c1.toNat - 48) rest
        | [] => timeTail (c1.toNat - 48) []
      else 99999
    | [] => 99999

/-- Reserved line prefixes skipped by the title and teacher heuristics. -/
def reservedPre (low : String) : Bool :=
  ["salle", "site", "socle ", "promotion ", "groupe "].any fun p => p.data.isPrefixOf low.data

/-- Model of the inner `pick_title` helper of `case_payload`. -/
def pick_title : List String → String
  | [] => ""
  | s :: rest =>
    let low := pyLower s
    if (searchTimeRange low.data).isSome then pick_title rest
    else if reservedPre low then pick_title rest
    else s

/-- Character class `[A-Za-zÀ-ÖØ-öø-ÿ' \-]` of the teacher name pattern. -/
def nameChar (c : Char) : Bool :=
  ('A' ≤ c ∧ c ≤ 'Z') ∨ ('a' ≤ c ∧ c ≤ 'z') ∨
  ('\xc0' ≤ c ∧ c ≤ '\xd6') ∨ ('\xd8' ≤ c ∧ c ≤ '\xf6') ∨ ('\xf8' ≤ c ∧ c ≤ '\xff') ∨
  c = '\x27' ∨ c = ' ' ∨ c = '-'

/-- Model of `re.match(r"^[A-Za-zÀ-ÖØ-öø-ÿ' \-]{3,}$", s)`: at least three
characters, all in the name class. -/
def nameShaped (s : String) : Bool := 3 ≤ s.data.length && s.data.all nameChar

/-- The teacher-scan loop of `case_payload`: skip lines until the one equal to
the title, then return the first later name-shaped line that is neither a
time range nor reserved-prefixed. -/
def teacherScan (title : String) : Bool → List String → String
  | _, [] => ""
  | false, s :: rest => teacherScan title (s = title) rest
  | true, s :: rest =>
    let low := pyLower s
    if (searchTimeRange low.data).isSome ∨ reservedPre low then teacherScan title true rest
    else if nameShaped s then pyStrip s
    else teacherScan title true rest

-- ---------- room line matching ----------

/-- Character class `[A-Za-z0-9_\- ]` of the room-name group. -/
def roomChar (c : Char) : Bool :=
  ('A' ≤ c ∧ c ≤ 'Z') ∨ ('a' ≤ c ∧ c ≤ 'z') ∨ ('0' ≤ c ∧ c ≤ '9') ∨
  c = '_' ∨ c = '-' ∨ c = ' '

/-- Tail matcher `(?:\(([^)]+)\))?$`: either end of line, or exactly one
parenthesized non-empty site without a closing parenthesis inside. -/
def parenOrEnd : List Char → Option String
  | [] => some ""
  | '(' :: r =>
    match r.getLast? with
    | some ')' =>
      let inner := r.dropLast
      if inner ≠ [] ∧ ¬ inner.contains ')' then some ⟨inner⟩ else none
    | _ => none
  | _ => none

/-- Greedy group `([A-Za-z0-9_\- ]+)` followed by `parenOrEnd`, trying the
longest group first (down to one character). -/
def roomGroupFrom (l : List Char) : Nat → Option (String × String)
  | 0 => none
  | k + 1 =>
    match parenOrEnd (l.drop (k + 1)) with
    | some site => some (⟨l.take (k + 1)⟩, site)
    | none => roomGroupFrom l k

def roomGroup (l : List Char) : Option (String × String) :=
  let run := l.takeWhile roomChar
  if run.isEmpty then none else roomGroupFrom l run.length

/-- Greedy `\s*` followed by a continuation, trying the longest whitespace
run first (down to zero characters). -/
def tryWsFrom (f : List Char → Option (String × String)) (l : List Char) :
    Nat → Option (String × String)
  | 0 => f l
  | k + 1 =>
    match f (l.drop (k + 1)) with
    | some x => some x
    | none => tryWsFrom f l k

def tryWsThen (f : List Char → Option (String × String)) (l : List Char) :
    Option (String × String) :=
  tryWsFrom f l (l.takeWhile pyIsSpace).length

/-- The part of the room pattern after the literal `salle`:
`\s*:?\s*([A-Za-z0-9_\- ]+)(?:\(([^)]+)\))?$`, with regex backtracking
priority (optional colon taken when possible). -/
def roomAfterSalle (l : List Char) : Option (String × String) :=
  tryWsThen
    (fun l2 =>
      match
        (match l2 with
         | ':' :: r => tryWsThen roomGroup r
         | _ => none)
      with
      | some x => some x
      | none => tryWsThen roomGroup l2)
    l

/-- Model of the per-line room match
`re.search(r"^salle\s*:?\s*([A-Za-z0-9_\- ]+)(?:\(([^)]+)\))?$", l, re.I)`. -/
def roomLineMatch (l : String) : Option (String × String) :=
  if (l.data.take 5).map pyLowerChar = "salle".data then roomAfterSalle (l.data.drop 5)
  else none

/-- The room/site scan of `case_payload`: first matching line wins. -/
def roomScan : List String → String × String
  | [] => ("", "")
  | l :: rest =>
    match roomLineMatch l with
    | some (g1, g2) => (pyStrip g1, pyStrip g2)
    | none => roomScan rest

-- ---------- case_payload ----------

/-- Python event dicts, modelled as insertion-ordered association lists. -/
abbrev EvDict := List (String × String)

/-- Model of `ev.get(k, "")` (also used for `ev.get(k)` in truthiness tests,
where a missing key and an empty string are equally falsy). -/
def dget (ev : EvDict) (k : String) : String := (ev.lookup k).getD ""

/-- Model of `case_payload`, as a function of the flattened node text
`case.get_text("\n", strip=True)`. -/
def case_payload (txt : String) : EvDict :=
  let lines := ((pySplitlines txt).map pyStrip).filter (fun l => l ≠ "")
  let full := String.intercalate "\n" lines
  let se : String × String :=
    match searchTimeRange full.data with
    | none => ("", "")
    | some (g1, g2) =>
      (pyReplaceChar (String.mk g1) (Char.ofNat 104) ":", pyReplaceChar (String.mk g2) (Char.ofNat 104) ":")
  let rs := roomScan lines
  let title := pick_title lines
  let teacher := teacherScan title false lines
  [("raw", text_clean txt), ("start", se.1), ("end", se.2), ("room", rs.1),
   ("site", rs.2), ("teacher", teacher), ("title", title)]

-- ---------- day assignment and week assembly ----------

/-- The scanning loop of `nearest_day_label_for_case`: keep the first header
attaining each new strictly smaller delta. -/
def nearestGo (leftMod : ℚ) : Option String → ℚ → List (ℚ × String) → Option String
  | best, _, [] => best
  | best, bestDelta, (dl, label) :: rest =>
    let delta := |leftMod - pyMod100 dl|
    if delta < bestDelta then nearestGo leftMod (some label) delta rest
    else nearestGo leftMod best bestDelta rest

/-- Model of `nearest_day_label_for_case` (initial best delta `1e9`; a case
without parsable offset counts as offset `0.0`). -/
def nearest_day_label_for_case (c : CaseTag) (day_headers : List (ℚ × String)) :
    Option String :=
  nearestGo (pyMod100 (c.left.getD 0)) none ((10 : ℚ) ^ 9) day_headers

/-- The dict literal appended for a "pas de cours" case (note: no `site` key). -/
def forcedNoCourse : EvDict :=
  [("raw", "Pas de cours cette semaine"), ("start", ""), ("end", ""),
   ("room", ""), ("teacher", ""), ("title", "")]

/-- Model of `{label: [] for _, label in day_headers}` (first occurrence fixes
the position of a duplicated label). -/
def dictInsertEmpty (m : List (String × List EvDict)) (label : String) :
    List (String × List EvDict) :=
  if m.any (fun p => p.1 = label) then m else m ++ [(label, [])]

def initByDay (hs : List (ℚ × String)) : List (String × List EvDict) :=
  hs.foldl (fun m h => dictInsertEmpty m h.2) []

/-- Model of `by_day.setdefault(label, []).append(ev)`. -/
def dictAppend (m : List (String × List EvDict)) (label : String) (ev : EvDict) :
    List (String × List EvDict) :=
  match m with
  | [] => [(label, [ev])]
  | (k, evs) :: rest =>
    if k = label then (k, evs ++ [ev]) :: rest else (k, evs) :: dictAppend rest label ev

/-- Substring test (Python `needle in hay`). -/
def containsSub (needle : List Char) : List Char → Bool
  | [] => needle.isEmpty
  | c :: cs => needle.isPrefixOf (c :: cs) || containsSub needle cs

/-- The per-case step of `build_week_map` (with the first day-header label
passed explicitly: the guard on empty headers has already been taken). -/
def buildStep (day_headers : List (ℚ × String)) (firstLabel : String)
    (m : List (String × List EvDict)) (c : CaseTag) : List (String × List EvDict) :=
  let innerTxt := pyLower (text_clean (getText " " c))
  if containsSub "pas de cours".data innerTxt.data then
    dictAppend m firstLabel forcedNoCourse
  else
    let label :=
      match nearest_day_label_for_case c day_headers with
      | none => firstLabel
      | some l => if l = "" then firstLabel else l
    dictAppend m label (case_payload (getText "\n" c))

/-- The assembled mapping before the per-day sort. -/
def build_week_map_raw (cases : List CaseTag) (day_headers : List (ℚ × String)) :
    List (String × List EvDict) :=
  match day_headers with
  | [] => []
  | h0 :: _ => cases.foldl (buildStep day_headers h0.2) (initByDay day_headers)

/-- The sort key of the per-day sort. -/
def startKey (ev : EvDict) : Nat := _time_to_minutes (dget ev "start")

/-- Model of `build_week_map`: on an empty day-header list return the empty
mapping; otherwise assemble the per-day lists and sort each by start time
(Python `list.sort` is stable; `insertionSort` with the non-strict key order
is the same stable ascending sort). -/
def build_week_map (cases : List CaseTag) (day_headers : List (ℚ × String)) :
    List (String × List EvDict) :=
  (build_week_map_raw cases day_headers).map fun p =>
    (p.1, List.insertionSort (fun a b => startKey a ≤ startKey b) p.2)

-- ---------- date_for_label_in_week ----------

/-- Find the first French weekday name that is a prefix of the label. -/
def dowIdxGo (low : List Char) : List String → Nat → Option Nat
  | [], _ => none
  | n :: rest, i => if n.data.isPrefixOf low then some i else dowIdxGo low rest (i + 1)

/-- Alternatives of the month alternation of the fallback pattern in
`date_for_label_in_week` (character classes expanded; within a class at most
one branch can match a given character). -/
def monthAlts : List String :=
  ["janvier", "février", "fevrier", "mars", "avril", "mai", "juin", "juillet",
   "aout", "août", "septembre", "octobre", "novembre", "décembre", "decembre"]

def matchMonthAlt (l : List Char) : List String → Option String
  | [] => none
  | a :: rest => if a.data.isPrefixOf l then some a else matchMonthAlt l rest

/-- Lazy `.+?` (dot does not match newline) followed by the month alternation. -/
def lazyDotMonth : List Char → Option String
  | [] => none
  | c :: rest =>
    if c = '\n' then none
    else
      match matchMonthAlt rest monthAlts with
      | some m => some m
      | none => lazyDotMonth rest

/-- Match `(\d{1,2}).+?(month-alternation)` at the current position (digits
greedy with backtrack from two to one). -/
def fallbackAt (l : List Char) : Option (Nat × String) :=
  match l with
  | [] => none
  | c1 :: rest1 =>
    if isDigitChar c1 then
      match rest1 with
      | c2 :: rest2 =>
        if isDigitChar c2 then
          match lazyDotMonth rest2 with
          | some m => some ((c1.toNat - 48) * 10 + (c2.toNat - 48), m)
          | none =>
            match lazyDotMonth rest1 with
            | some m => some (c1.toNat - 48, m)
            | none => none
        else
          match lazyDotMonth rest1 with
          | some m => some (c1.toNat - 48, m)
          | none => none
      | [] => none
    else none

/-- Leftmost `re.search` of the day/month fallback pattern. -/
def searchDayMonth : List Char → Option (Nat × String)
  | [] => none
  | c :: cs =>
    match fallbackAt (c :: cs) with
    | some r => some r
    | none => searchDayMonth cs

/-- Model of `date_for_label_in_week`: a label starting with a weekday name
resolves to monday + index; otherwise the day/month fallback combined with
the monday's year (falling back to monday itself on an invalid date or no
match). -/
def date_for_label_in_week (label : String) (monday : PDate) : PDate :=
  let low := pyLower (pyStrip label)
  match dowIdxGo low.data DOW_FR 0 with
  | some i => addDays monday i
  | none =>
    match searchDayMonth low.data with
    | some (day, mname) =>
      let month := (FR_MONTHS.lookup (pyReplaceChar (pyReplaceChar mname (Char.ofNat 0xfb) "u") (Char.ofNat 0xe9) "e")).getD 0
      if 1 ≤ day ∧ day ≤ daysInMonth monday.year month then ⟨monday.year, month, day⟩
      else monday
    | none => monday

-- ---------- ICS escaping and MD5 ----------

/-- Model of `_ics_escape`: sequential replaces of backslash, semicolon,
comma and newline. -/
def _ics_escape (s : String) : String :=
  pyReplaceChar (pyReplaceChar (pyReplaceChar (pyReplaceChar s (Char.ofNat 92) "\\\\") (Char.ofNat 59) "\\;") (Char.ofNat 44) "\\,") (Char.ofNat 10) "\\n"

/-- UTF-8 encoding of one character (as byte values). -/
def utf8Char (c : Char) : List Nat :=
  let n := c.toNat
  if n < 0x80 then [n]
  else if n < 0x800 then [0xC0 + n / 0x40, 0x80 + n % 0x40]
  else if n < 0x10000 then
    [0xE0 + n / 0x1000, 0x80 + (n / 0x40) % 0x40, 0x80 + n % 0x40]
  else
    [0xF0 + n / 0x40000, 0x80 + (n / 0x1000) % 0x40, 0x80 + (n / 0x40) % 0x40, 0x80 + n % 0x40]

def utf8Encode (s : String) : List Nat := (s.data.map utf8Char).flatten

def m32 (x : Nat) : Nat := x % 4294967296

def bnot32 (x : Nat) : Nat := 4294967295 - x

def rotl32 (x s : Nat) : Nat := m32 (x * 2 ^ s) + x / 2 ^ (32 - s)

/-- The 64 MD5 sine-derived constants (RFC 1321). -/
def mdK : List Nat :=
  [0xd76aa478, 0xe8c7b756, 0x242070db, 0xc1bdceee,
   0xf57c0faf, 0x4787c62a, 0xa8304613, 0xfd469501,
   0x698098d8, 0x8b44f7af, 0xffff5bb1, 0x895cd7be,
   0x6b901122, 0xfd987193, 0xa679438e, 0x49b40821,
   0xf61e2562, 0xc040b340, 0x265e5a51, 0xe9b6c7aa,
   0xd62f105d, 0x02441453, 0xd8a1e681, 0xe7d3fbc8,
   0x21e1cde6, 0xc33707d6, 0xf4d50d87, 0x455a14ed,
   0xa9e3e905, 0xfcefa3f8, 0x676f02d9, 0x8d2a4c8a,
   0xfffa3942, 0x8771f681, 0x6d9d6122, 0xfde5380c,
   0xa4beea44, 0x4bdecfa9, 0xf6bb4b60, 0xbebfbc70,
   0x289b7ec6, 0xeaa127fa, 0xd4ef3085, 0x04881d05,
   0xd9d4d039, 0xe6db99e5, 0x1fa27cf8, 0xc4ac5665,
   0xf4292244, 0x432aff97, 0xab9423a7, 0xfc93a039,
   0x655b59c3, 0x8f0ccc92, 0xffeff47d, 0x85845dd1,
   0x6fa87e4f, 0xfe2ce6e0, 0xa3014314, 0x4e0811a1,
   0xf7537e82, 0xbd3af235, 0x2ad7d2bb, 0xeb86d391]

/-- The 64 MD5 per-round left-rotation amounts. -/
def mdS : List Nat :=
  [7, 12, 17, 22, 7, 12, 17, 22, 7, 12, 17, 22, 7, 12, 17, 22,
   5, 9, 14, 20, 5, 9, 14, 20, 5, 9, 14, 20, 5, 9, 14, 20,
   4, 11, 16, 23, 4, 11, 16, 23, 4, 11, 16, 23, 4, 11, 16, 23,
   6, 10, 15, 21, 6, 10, 15, 21, 6, 10, 15, 21, 6, 10, 15, 21]

/-- MD5 padding: append 0x80, zero bytes to 56 mod 64, then the bit length
as 8 little-endian bytes. -/
def md5pad (msg : List Nat) : List Nat :=
  let len := msg.length
  let z := (119 - len % 64) % 64
  msg ++ [0x80] ++ List.replicate z 0 ++
    ((List.range 8).map fun i => (len * 8) % 2 ^ 64 / 2 ^ (8 * i) % 256)

/-- Little-endian 32-bit words of a 64-byte block. -/
def blockWords (b : List Nat) : List Nat :=
  (List.range 16).map fun j =>
    b.getD (4 * j) 0 + b.getD (4 * j + 1) 0 * 256 +
    b.getD (4 * j + 2) 0 * 65536 + b.getD (4 * j + 3) 0 * 16777216

def md5Step (M : List Nat) (i : Nat) :
    Nat × Nat × Nat × Nat → Nat × Nat × Nat × Nat
  | (a, b, c, d) =>
    let fg : Nat × Nat :=
      if i < 16 then ((b &&& c) ||| (bnot32 b &&& d), i)
      else if i < 32 then ((d &&& b) ||| (bnot32 d &&& c), (5 * i + 1) % 16)
      else if i < 48 then (b ^^^ c ^^^ d, (3 * i + 5) % 16)
      else (c ^^^ (b ||| bnot32 d), (7 * i) % 16)
    let f2 := m32 (fg.1 + a + mdK.getD i 0 + M.getD fg.2 0)
    (d, m32 (b + rotl32 f2 (mdS.getD i 0)), b, c)

/-- The 64 rounds of one MD5 compression, i ascending (fueled by the number
of remaining rounds). -/
def md5Rounds (M : List Nat) : Nat → Nat × Nat × Nat × Nat → Nat × Nat × Nat × Nat
  | 0, st => st
  | n + 1, st => md5Rounds M n (md5Step M (63 - n) st)

def md5Compress (st : Nat × Nat × Nat × Nat) (block : List Nat) :
    Nat × Nat × Nat × Nat :=
  let M := blockWords block
  let r := md5Rounds M 64 st
  (m32 (st.1 + r.1), m32 (st.2.1 + r.2.1), m32 (st.2.2.1 + r.2.2.1),
   m32 (st.2.2.2 + r.2.2.2))

/-- Process the padded message 64 bytes at a time (fueled by block count). -/
def md5Blocks : Nat → (Nat × Nat × Nat × Nat) → List Nat → Nat × Nat × Nat × Nat
  | 0, st, _ => st
  | n + 1, st, bytes => md5Blocks n (md5Compress st (bytes.take 64)) (bytes.drop 64)

def wordBytes (w : Nat) : List Nat := [w % 256, w / 256 % 256, w / 65536 % 256, w / 16777216 % 256]

def hexDigitChar (n : Nat) : Char :=
  if n < 10 then Char.ofNat (48 + n) else Char.ofNat (87 + n)

def byteHex (b : Nat) : List Char := [hexDigitChar (b / 16), hexDigitChar (b % 16)]

/-- Model of `hashlib.md5(s.encode("utf-8")).hexdigest()` (RFC 1321). -/
def md5Hex (s : String) : String :=
  let msg := md5pad (utf8Encode s)
  let st := md5Blocks (msg.length / 64) (0x67452301, 0xefcdab89, 0x98badcfe, 0x10325476) msg
  ⟨(((wordBytes st.1 ++ wordBytes st.2.1) ++ wordBytes st.2.2.1) ++ wordBytes st.2.2.2).map byteHex |>.flatten⟩

-- ---------- export_ics ----------

def pad2 (n : Nat) : String := if n < 10 then ⟨['0', Char.ofNat (48 + n)]⟩ else toString n

def pad4 (n : Nat) : String :=
  if n < 10 then "000" ++ toString n
  else if n < 100 then "00" ++ toString n
  else if n < 1000 then "0" ++ toString n
  else toString n

/-- Model of the f-string `{day:%Y%m%d}`. -/
def fmtYmd (d : PDate) : String := pad4 d.year ++ pad2 d.month ++ pad2 d.day

def dtstartStr (day : PDate) (ev : EvDict) : String :=
  fmtYmd day ++ "T" ++ pyReplaceChar (dget ev "start") (Char.ofNat 58) "" ++ "00"

def dtendStr (day : PDate) (ev : EvDict) : String :=
  fmtYmd day ++ "T" ++ pyReplaceChar (dget ev "end") (Char.ofNat 58) "" ++ "00"

def titleStr (ev : EvDict) : String :=
  _ics_escape (if dget ev "title" = "" then "Cours" else dget ev "title")

def locStr (ev : EvDict) : String :=
  _ics_escape (pyStrip (dget ev "room" ++ " " ++
    (if dget ev "site" = "" then "" else "(" ++ dget ev "site" ++ ")")))

def descrStr (ev : EvDict) : String := _ics_escape (dget ev "teacher")

/-- The deterministic event identifier: MD5 of the pipe-joined resolved
fields, suffixed with the fixed domain tag. -/
def uidOfFields (a b t l d : String) : String :=
  md5Hex (a ++ "|" ++ b ++ "|" ++ t ++ "|" ++ l ++ "|" ++ d) ++ "@edt-wigor"

def eventUID (day : PDate) (ev : EvDict) : String :=
  uidOfFields (dtstartStr day ev) (dtendStr day ev) (titleStr ev) (locStr ev) (descrStr ev)

/-- The nine lines emitted per calendar-eligible event. -/
def eventLines (nowstamp : String) (day : PDate) (ev : EvDict) : List String :=
  ["BEGIN:VEVENT",
   "UID:" ++ eventUID day ev,
   "DTSTAMP:" ++ nowstamp,
   "DTSTART;TZID=Europe/Paris:" ++ dtstartStr day ev,
   "DTEND;TZID=Europe/Paris:" ++ dtendStr day ev,
   "SUMMARY:" ++ titleStr ev,
   "LOCATION:" ++ locStr ev,
   "DESCRIPTION:" ++ descrStr ev,
   "END:VEVENT"]

/-- The fixed header lines of `export_ics` before the calendar-name line. -/
def icsHeaderPre : List String :=
  ["BEGIN:VCALENDAR", "VERSION:2.0", "PRODID:-//EDT-Wigor//Scraper//FR",
   "CALSCALE:GREGORIAN", "METHOD:PUBLISH"]

/-- The fixed VTIMEZONE lines of `export_ics` after the calendar-name line. -/
def icsHeaderPost : List String :=
  ["X-WR-TIMEZONE:Europe/Paris",
   "BEGIN:VTIMEZONE", "TZID:Europe/Paris", "X-LIC-LOCATION:Europe/Paris",
   "BEGIN:DAYLIGHT", "TZOFFSETFROM:+0100", "TZOFFSETTO:+0200", "TZNAME:CEST",
   "DTSTART:19700329T020000", "RRULE:FREQ=YEARLY;BYMONTH=3;BYDAY=-1SU",
   "END:DAYLIGHT",
   "BEGIN:STANDARD", "TZOFFSETFROM:+0200", "TZOFFSETTO:+0100", "TZNAME:CET",
   "DTSTART:19701025T030000", "RRULE:FREQ=YEARLY;BYMONTH=10;BYDAY=-1SU",
   "END:STANDARD", "END:VTIMEZONE"]

/-- The fixed VCALENDAR/VTIMEZONE header lines of `export_ics`. -/
def icsHeader (calName : String) : List String :=
  icsHeaderPre ++ ["X-WR-CALNAME:" ++ _ics_escape calName] ++ icsHeaderPost

abbrev WeekMap := List (String × List EvDict)

/-- Model of `export_ics`, producing the list of ICS lines. The DTSTAMP value
(`utcnow` in the source) is passed in as `nowstamp`; events lacking a start
or an end are skipped. -/
def export_ics_lines (weeks : List (PDate × WeekMap)) (calName nowstamp : String) :
    List String :=
  icsHeader calName ++
    (weeks.map fun wk =>
      (wk.2.map fun de =>
        let day := date_for_label_in_week de.1 wk.1
        (de.2.map fun ev =>
          if dget ev "start" = "" ∨ dget ev "end" = "" then []
          else eventLines nowstamp day ev).flatten).flatten).flatten ++
    ["END:VCALENDAR"]

/-- The document written by `export_ics` (CRLF-joined). -/
def export_ics (weeks : List (PDate × WeekMap)) (calName nowstamp : String) : String :=
  String.intercalate "\r\n" (export_ics_lines weeks calName nowstamp)

/-- Canonical 1-2 digit decimal literal of a day number. -/
def dayLit (d : Nat) : String :=
  if d < 10 then ⟨[Char.ofNat (48 + d)]⟩
  else ⟨[Char.ofNat (48 + d / 10), Char.ofNat (48 + d % 10)]⟩

/-- Model of the per-week body of `main`: when no panel is identified the
week is skipped (no contribution); otherwise the week contributes the
assembled week map of the selected panel. -/
def main_week_contribution (soup : Soup) (monday : PDate) : Option WeekMap :=
  match week_panel_index_for_target soup monday with
  | none => none
  | some panel =>
      some (build_week_map (extract_cases_for_panel soup panel)
        (day_headers_for_panel soup panel))

/-- Calendar eligibility: both start and end non-empty (the negation of the
skip condition of the export loop). -/
def eligible (ev : EvDict) : Bool :=
  !(dget ev "start" == "") && !(dget ev "end" == "")

/-- Number of calendar-eligible events of a multi-week payload. -/
def eligCount (weeks : List (PDate × WeekMap)) : Nat :=
  (weeks.map fun wk => (wk.2.map fun de => de.2.countP eligible).sum).sum

/-- A UID line with a non-empty identifier: the line starts with the literal
`UID:` and carries at least one further character. -/
def uidLine (l : String) : Bool :=
  "UID:".data.isPrefixOf l.data && decide (4 < l.data.length)

/-- Whether a character list contains a non-whitespace character. -/
def hasNonWs (l : List Char) : Bool := l.any (fun c => !pyIsSpace c)

/-- Count of newline characters followed (somewhere later) by a
non-whitespace character. -/
def nlWithNonWsAfter : List Char → Nat
  | [] => 0
  | c :: cs => (if c = '\n' ∧ hasNonWs cs = true then 1 else 0) + nlWithNonWsAfter cs

/-- Count of interior newlines: newlines with a non-whitespace character
somewhere before AND somewhere after them. -/
def nlInterior : List Char → Nat
  | [] => 0
  | c :: cs => if pyIsSpace c then nlInterior cs else nlWithNonWsAfter cs

-- ===================== theorems =====================

/-- C1 (counterexample): on the input case text lines
`["09:00 - 10:30", "Algorithmique", "Salle: B204 (Site Nord)", "J. Martin"]`
the parser does NOT return teacher = "J. Martin" (the period in "J. Martin"
is outside the teacher name character class), refuting the claim. -/
theorem c1_counterexample :
    dget (case_payload "09:00 - 10:30\nAlgorithmique\nSalle: B204 (Site Nord)\nJ. Martin")
        "teacher" ≠ "J. Martin" := by decide

/-- C1 (amended): for the input case text lines
`["09:00 - 10:30", "Algorithmique", "Salle: B204 (Site Nord)", "J. Martin"]`,
the case field parser returns start="09:00", end="10:30",
title="Algorithmique", room="B204", site="Site Nord", and teacher="" (the
line "J. Martin" fails the name-shaped pattern because of the period). -/
theorem c1_fields :
    case_payload "09:00 - 10:30\nAlgorithmique\nSalle: B204 (Site Nord)\nJ. Martin" =
      [("raw", "09:00 - 10:30\nAlgorithmique\nSalle: B204 (Site Nord)\nJ. Martin"),
       ("start", "09:00"), ("end", "10:30"), ("room", "B204"), ("site", "Site Nord"),
       ("teacher", ""), ("title", "Algorithmique")] := by decide

/-- C9: the week assembler called with an empty day-header list returns the
empty mapping for every list of case nodes (the guard returns before any
indexing can fail). -/
theorem c9_build_week_map_empty_headers (cases : List CaseTag) :
    build_week_map cases [] = [] := rfl

/-- C4 (counterexample): the forced "no class this week" event appended by
`build_week_map` has no "site" key, refuting the claim that every event
object has exactly the keys raw, start, end, room, site, teacher, title. -/
theorem c4_counterexample :
    build_week_map [⟨some 5, "", ["Pas de cours cette semaine"]⟩]
        [(0, "Lundi 15 septembre")] = [("Lundi 15 septembre", [forcedNoCourse])] ∧
      List.lookup "site" forcedNoCourse = none ∧
      forcedNoCourse.map Prod.fst = ["raw", "start", "end", "room", "teacher", "title"] := by
  refine ⟨by decide, by decide, by decide⟩

/-- The key list of every dict produced by `case_payload`. -/
lemma case_payload_keys (txt : String) :
    (case_payload txt).map Prod.fst =
      ["raw", "start", "end", "room", "site", "teacher", "title"] := rfl

/-- A per-event property is preserved by `dictAppend`. -/
lemma good_dictAppend {P : EvDict → Prop} {m : List (String × List EvDict)}
    {lab : String} {ev : EvDict}
    (hm : ∀ p ∈ m, ∀ e ∈ p.2, P e) (hev : P ev) :
    ∀ p ∈ dictAppend m lab ev, ∀ e ∈ p.2, P e := by
  induction m with
  | nil =>
    intro p hp e he
    simp only [dictAppend, List.mem_singleton] at hp
    subst hp
    simp only [List.mem_singleton] at he
    exact he ▸ hev
  | cons q rest ih =>
    obtain ⟨kk, evs'⟩ := q
    intro p hp e he
    simp only [dictAppend] at hp
    by_cases hk : kk = lab
    · rw [if_pos hk] at hp
      rcases List.mem_cons.1 hp with h1 | h2
      · subst h1
        rcases List.mem_append.1 he with h3 | h3
        · exact hm (kk, evs') (List.mem_cons_self _ _) e h3
        · simp only [List.mem_singleton] at h3
          exact h3 ▸ hev
      · exact hm p (List.mem_cons_of_mem _ h2) e he
    · rw [if_neg hk] at hp
      rcases List.mem_cons.1 hp with h1 | h2
      · subst h1
        exact hm (kk, evs') (List.mem_cons_self _ _) e he
      · exact ih (fun q hq => hm q (List.mem_cons_of_mem _ hq)) p h2 e he

/-- Every event list in the initial day map is empty. -/
lemma good_initFold {P : EvDict → Prop} :
    ∀ (hs : List (ℚ × String)) (m : List (String × List EvDict)),
      (∀ p ∈ m, ∀ e ∈ p.2, P e) →
      ∀ p ∈ hs.foldl (fun m h => dictInsertEmpty m h.2) m, ∀ e ∈ p.2, P e := by
  intro hs
  induction hs with
  | nil => intro m hm; exact hm
  | cons h t ih =>
    intro m hm
    simp only [List.foldl_cons]
    refine ih _ ?_
    intro p hp e he
    unfold dictInsertEmpty at hp
    by_cases hany : m.any (fun q => q.1 = h.2)
    · rw [if_pos hany] at hp
      exact hm p hp e he
    · rw [if_neg hany] at hp
      rcases List.mem_append.1 hp with h1 | h1
      · exact hm p h1 e he
      · simp only [List.mem_singleton] at h1
        subst h1
        simp at he

/-- A per-event property holding of `case_payload` outputs and of the forced
no-class dict is an invariant of the assembly fold. -/
lemma good_buildFold {P : EvDict → Prop}
    (hP1 : ∀ txt, P (case_payload txt)) (hP2 : P forcedNoCourse)
    (hs : List (ℚ × String)) (fl : String) :
    ∀ (cases : List CaseTag) (m : List (String × List EvDict)),
      (∀ p ∈ m, ∀ e ∈ p.2, P e) →
      ∀ p ∈ cases.foldl (buildStep hs fl) m, ∀ e ∈ p.2, P e := by
  intro cases
  induction cases with
  | nil => intro m hm; exact hm
  | cons c t ih =>
    intro m hm
    simp only [List.foldl_cons]
    refine ih _ ?_
    simp only [buildStep]
    split
    · exact good_dictAppend hm hP2
    · exact good_dictAppend hm (hP1 _)

/-- C4 (amended): every event object in the assembled weekly schedule has
exactly the keys raw, start, end, room, site, teacher, title, except the
forced "no class this week" event, which is the fixed dict with exactly the
keys raw, start, end, room, teacher, title. -/
theorem c4_keys (cases : List CaseTag) (hs : List (ℚ × String)) (l : String)
    (evs : List EvDict) (ev : EvDict)
    (h1 : (l, evs) ∈ build_week_map cases hs) (h2 : ev ∈ evs) :
    ev.map Prod.fst = ["raw", "start", "end", "room", "site", "teacher", "title"] ∨
      (ev = forcedNoCourse ∧
        ev.map Prod.fst = ["raw", "start", "end", "room", "teacher", "title"]) := by
  obtain ⟨⟨l0, evs0⟩, hmem, heq⟩ := List.mem_map.1 h1
  have hevs : evs = List.insertionSort (fun a b => startKey a ≤ startKey b) evs0 := by
    have := congrArg Prod.snd heq
    exact this.symm
  have hev0 : ev ∈ evs0 := by
    rw [hevs] at h2
    exact (List.mem_insertionSort _).1 h2
  have key : (case_payload "").map Prod.fst =
      ["raw", "start", "end", "room", "site", "teacher", "title"] := rfl
  have main : ∀ p ∈ build_week_map_raw cases hs, ∀ e ∈ p.2,
      e.map Prod.fst = ["raw", "start", "end", "room", "site", "teacher", "title"] ∨
        e = forcedNoCourse := by
    unfold build_week_map_raw
    cases hs with
    | nil => intro p hp; simp at hp
    | cons h0 t =>
      exact good_buildFold (fun txt => Or.inl (case_payload_keys txt)) (Or.inr rfl) _ _ _ _
        (good_initFold _ _ (by intro p hp; simp at hp))
  rcases main (l0, evs0) hmem ev hev0 with h | h
  · exact Or.inl h
  · exact Or.inr ⟨h, by rw [h]; rfl⟩

/-- C4 (witness): the amended key property evaluated on a concrete schedule
containing both a normal case and a forced no-class case. -/
theorem c4_keys_witness :
    (("Lundi 15 septembre",
        [case_payload "09:00 - 10:30\nAlgorithmique", forcedNoCourse]) ∈
      build_week_map
        [⟨some 5, "", ["Pas de cours cette semaine"]⟩,
         ⟨some 6, "", ["09:00 - 10:30", "Algorithmique"]⟩]
        [(0, "Lundi 15 septembre")]) ∧
      (forcedNoCourse.map Prod.fst =
          ["raw", "start", "end", "room", "site", "teacher", "title"] ∨
        (forcedNoCourse = forcedNoCourse ∧
          forcedNoCourse.map Prod.fst =
            ["raw", "start", "end", "room", "teacher", "title"])) := by
  have hbw : build_week_map
      [⟨some 5, "", ["Pas de cours cette semaine"]⟩,
       ⟨some 6, "", ["09:00 - 10:30", "Algorithmique"]⟩]
      [(0, "Lundi 15 septembre")] =
      [("Lundi 15 septembre",
        [case_payload "09:00 - 10:30\nAlgorithmique", forcedNoCourse])] := by decide
  have hmem : ("Lundi 15 septembre",
      [case_payload "09:00 - 10:30\nAlgorithmique", forcedNoCourse]) ∈
      build_week_map
        [⟨some 5, "", ["Pas de cours cette semaine"]⟩,
         ⟨some 6, "", ["09:00 - 10:30", "Algorithmique"]⟩]
        [(0, "Lundi 15 septembre")] := by
    rw [hbw]; exact List.mem_singleton.2 rfl
  refine ⟨hmem, ?_⟩
  exact c4_keys
    [⟨some 5, "", ["Pas de cours cette semaine"]⟩,
     ⟨some 6, "", ["09:00 - 10:30", "Algorithmique"]⟩]
    [(0, "Lundi 15 septembre")] "Lundi 15 septembre"
    [case_payload "09:00 - 10:30\nAlgorithmique", forcedNoCourse] forcedNoCourse
    hmem (List.mem_cons_of_mem _ (List.mem_singleton.2 rfl))

lemma daysInMonth_le_31 (y m : Nat) : daysInMonth y m ≤ 31 := by
  unfold daysInMonth
  split
  · split <;> decide
  · split <;> decide

set_option maxHeartbeats 2000000 in
lemma parse_day_header_all :
    ∀ wd ∈ DOW_FR, ∀ p ∈ FR_MONTHS, ∀ d < 32, 1 ≤ d → d ≤ daysInMonth 1900 p.2 →
      parse_day_header_date (wd ++ " " ++ dayLit d ++ " " ++ p.1) = some (p.2, d) := by
  decide

/-- C8: for every French weekday name, every month-name spelling of the
`FR_MONTHS` table (accented or unaccented) and every day number valid for
that month (in year 1900, the comparison year used by the resolver), the
day-header resolver returns the correct (month, day) pair; and on any label
in which the day-header pattern search fails, it returns none. -/
theorem c8_resolve_calendar_day :
    (∀ wd ∈ DOW_FR, ∀ p ∈ FR_MONTHS, ∀ d : Nat, 1 ≤ d → d ≤ daysInMonth 1900 p.2 →
        parse_day_header_date (wd ++ " " ++ dayLit d ++ " " ++ p.1) = some (p.2, d)) ∧
    (∀ lab : String, searchDayHeader (pyLower (text_clean lab)).data = none →
        parse_day_header_date lab = none) := by
  constructor
  · intro wd hwd p hp d h1 h2
    exact parse_day_header_all wd hwd p hp d
      (lt_of_le_of_lt (le_trans h2 (daysInMonth_le_31 1900 p.2)) (by norm_num)) h1 h2
  · intro lab h
    simp only [parse_day_header_date]
    rw [h]

/-- C8 (witness): the resolver evaluated through the theorem at the accented
spelling "février" with day 14, and at a label with no day-header match. -/
theorem c8_resolve_calendar_day_witness :
    parse_day_header_date ("lundi" ++ " " ++ dayLit 14 ++ " " ++ "février") = some (2, 14) ∧
      parse_day_header_date "Pas de cours" = none := by
  constructor
  · exact c8_resolve_calendar_day.1 "lundi" (by decide) ("février", 2) (by decide) 14
      (by decide) (by decide)
  · exact c8_resolve_calendar_day.2 "Pas de cours" (by decide)

lemma ratFloor_le (r : ℚ) : (Rat.floor r : ℚ) ≤ r := Rat.le_floor.1 (le_refl _)

lemma lt_ratFloor_add_one (r : ℚ) : r < Rat.floor r + 1 := by
  by_contra h
  push_neg at h
  have h2 : ((Rat.floor r + 1 : ℤ) : ℚ) ≤ r := by push_cast; exact h
  have := Rat.le_floor.2 h2
  omega

lemma pyMod100_nonneg (x : ℚ) : 0 ≤ pyMod100 x := by
  have h := ratFloor_le (x / 100)
  unfold pyMod100
  nlinarith

lemma pyMod100_lt (x : ℚ) : pyMod100 x < 100 := by
  have h := lt_ratFloor_add_one (x / 100)
  unfold pyMod100
  nlinarith

/-- Characterization of the `nearest_day_label_for_case` scan: either no
header beats the incoming best delta and the incoming best is returned, or
the result is the label of the first header attaining the final (strictly
improving) minimum. -/
lemma nearestGo_spec (lm : ℚ) :
    ∀ (hs : List (ℚ × String)) (best : Option String) (bd : ℚ),
      (nearestGo lm best bd hs = best ∧ ∀ q ∈ hs, bd ≤ |lm - pyMod100 q.1|) ∨
      (∃ pre q post, hs = pre ++ q :: post ∧
        nearestGo lm best bd hs = some q.2 ∧
        |lm - pyMod100 q.1| < bd ∧
        (∀ r ∈ pre, |lm - pyMod100 q.1| < |lm - pyMod100 r.1|) ∧
        (∀ r ∈ post, |lm - pyMod100 q.1| ≤ |lm - pyMod100 r.1|)) := by
  intro hs
  induction hs with
  | nil => intro best bd; left; exact ⟨rfl, by simp⟩
  | cons p t ih =>
    intro best bd
    by_cases hlt : |lm - pyMod100 p.1| < bd
    · have hstep : nearestGo lm best bd (p :: t) =
          nearestGo lm (some p.2) (|lm - pyMod100 p.1|) t := by
        obtain ⟨dl, lab⟩ := p
        simp only [nearestGo]
        rw [if_pos hlt]
      rcases ih (some p.2) (|lm - pyMod100 p.1|) with ⟨heq, hall⟩ | ⟨pre, q, post, ht, heq, hq, hpre, hpost⟩
      · right
        exact ⟨[], p, t, rfl, by rw [hstep, heq], hlt, by simp, hall⟩
      · right
        refine ⟨p :: pre, q, post, by rw [ht, List.cons_append], by rw [hstep, heq], lt_trans hq hlt, ?_, hpost⟩
        intro r hr
        rcases List.mem_cons.1 hr with h1 | h1
        · exact h1 ▸ hq
        · exact hpre r h1
    · have hstep : nearestGo lm best bd (p :: t) = nearestGo lm best bd t := by
        obtain ⟨dl, lab⟩ := p
        simp only [nearestGo]
        rw [if_neg hlt]
      push_neg at hlt
      rcases ih best bd with ⟨heq, hall⟩ | ⟨pre, q, post, ht, heq, hq, hpre, hpost⟩
      · left
        refine ⟨by rw [hstep, heq], ?_⟩
        intro q hqm
        rcases List.mem_cons.1 hqm with h1 | h1
        · exact h1 ▸ hlt
        · exact hall q h1
      · right
        refine ⟨p :: pre, q, post, by rw [ht, List.cons_append], by rw [hstep, heq], hq, ?_, hpost⟩
        intro r hr
        rcases List.mem_cons.1 hr with h1 | h1
        · exact h1 ▸ lt_of_lt_of_le hq hlt
        · exact hpre r h1

/-- C7: (exact hit) with pairwise-distinct header offsets modulo 100, a case
whose offset modulo 100 equals a header's offset modulo 100 is assigned that
header's label; (midway tie) a case exactly midway between two headers'
offsets modulo 100 is assigned the first header of the pair. -/
theorem c7_nearest_day_label :
    (∀ (c : CaseTag) (hs : List (ℚ × String)) (dl : ℚ) (lab : String),
        List.Pairwise (fun a b => pyMod100 a.1 ≠ pyMod100 b.1) hs →
        (dl, lab) ∈ hs →
        pyMod100 dl = pyMod100 (c.left.getD 0) →
        nearest_day_label_for_case c hs = some lab) ∧
    (∀ (c : CaseTag) (d1 d2 : ℚ) (l1 l2 : String),
        pyMod100 (c.left.getD 0) - pyMod100 d1 = pyMod100 d2 - pyMod100 (c.left.getD 0) →
        nearest_day_label_for_case c [(d1, l1), (d2, l2)] = some l1) := by
  constructor
  · intro c hs dl lab hdist hmem hmod
    set lm := pyMod100 (c.left.getD 0) with hlm
    have hdelta0 : |lm - pyMod100 dl| = 0 := by rw [hmod]; simp
    rcases nearestGo_spec lm hs none ((10 : ℚ) ^ 9) with ⟨_, hall⟩ | ⟨pre, q, post, ht, heq, _, hpre, hpost⟩
    · exfalso
      have := hall (dl, lab) hmem
      rw [hdelta0] at this
      norm_num at this
    · have hq0 : |lm - pyMod100 q.1| ≤ 0 := by
        rcases List.mem_append.1 (ht ▸ hmem) with h1 | h1
        · have := hpre (dl, lab) h1
          rw [hdelta0] at this
          exact absurd this (not_lt.2 (abs_nonneg _))
        · rcases List.mem_cons.1 h1 with h2 | h2
          · rw [← h2]; rw [hdelta0]
          · have := hpost (dl, lab) h2
            rw [hdelta0] at this
            exact this
      have hqeq : pyMod100 q.1 = lm := by
        have h1 : |lm - pyMod100 q.1| = 0 := le_antisymm hq0 (abs_nonneg _)
        have h2 := abs_eq_zero.1 h1
        linarith
      have hqlab : q = (dl, lab) := by
        rcases List.mem_append.1 (ht ▸ hmem) with h1 | h1
        · exfalso
          have := hpre (dl, lab) h1
          rw [hdelta0] at this
          exact absurd this (not_lt.2 (abs_nonneg _))
        · rcases List.mem_cons.1 h1 with h2 | h2
          · exact h2.symm
          · exfalso
            have hsub : List.Pairwise (fun a b => pyMod100 a.1 ≠ pyMod100 b.1) (q :: post) :=
              (ht ▸ hdist).sublist (List.sublist_append_right pre (q :: post))
            have := (List.pairwise_cons.1 hsub).1 (dl, lab) h2
            rw [hqeq, hmod] at this
            exact this rfl
      unfold nearest_day_label_for_case
      rw [heq, hqlab]
  · intro c d1 d2 l1 l2 hmid
    set lm := pyMod100 (c.left.getD 0) with hlm
    have habs : |lm - pyMod100 d2| = |lm - pyMod100 d1| := by
      have h1 : lm - pyMod100 d2 = -(lm - pyMod100 d1) := by linarith
      rw [h1, abs_neg]
    have hd1 : |lm - pyMod100 d1| < (10 : ℚ) ^ 9 := by
      have b1 := pyMod100_nonneg (c.left.getD 0)
      have b2 := pyMod100_lt (c.left.getD 0)
      have b3 := pyMod100_nonneg d1
      have b4 := pyMod100_lt d1
      rw [abs_lt]
      constructor <;> [nlinarith; nlinarith]
    unfold nearest_day_label_for_case
    simp only [nearestGo, ← hlm]
    rw [if_pos hd1, habs]
    simp

/-- C7 (witness): the assignment theorem evaluated at a case exactly on the
second header and at a case midway between two headers. -/
theorem c7_nearest_day_label_witness :
    nearest_day_label_for_case ⟨some 110, "", []⟩ [(103, "Lundi"), (110, "Mardi")] = some "Mardi" ∧
      nearest_day_label_for_case ⟨some 15, "", []⟩ [(10, "Lundi"), (20, "Mardi")] = some "Lundi" := by
  constructor
  · exact c7_nearest_day_label.1 ⟨some 110, "", []⟩ [(103, "Lundi"), (110, "Mardi")] 110 "Mardi"
      (by decide) (by decide) (by decide)
  · exact c7_nearest_day_label.2 ⟨some 15, "", []⟩ 10 20 "Lundi" "Mardi" (by decide)

lemma panAdd_ne_nil (m : List (ℤ × List PanelItem)) (p : ℤ) (it : PanelItem) :
    panAdd m p it ≠ [] := by
  cases m with
  | nil => simp [panAdd]
  | cons q rest =>
    obtain ⟨k, its⟩ := q
    simp only [panAdd]
    split <;> simp

/-- The panel fold produces the empty dict exactly when it starts empty and
every day header is skipped. -/
lemma panFold_nil_iff :
    ∀ (js : List JourDiv) (m : List (ℤ × List PanelItem)),
      js.foldl panStep m = [] ↔
        (m = [] ∧ ∀ j ∈ js, j.left = none ∨ parse_day_header_date j.label = none) := by
  intro js
  induction js with
  | nil => intro m; simp
  | cons j t ih =>
    intro m
    simp only [List.foldl_cons]
    constructor
    · intro h
      rcases hj : j.left with _ | left
      · have hstep : panStep m j = m := by simp [panStep, hj]
        rw [hstep] at h
        obtain ⟨hm, hall⟩ := (ih m).1 h
        exact ⟨hm, by
          intro j2 hj2
          rcases List.mem_cons.1 hj2 with h1 | h1
          · exact h1 ▸ Or.inl hj
          · exact hall j2 h1⟩
      · rcases hp : parse_day_header_date j.label with _ | md
        · have hstep : panStep m j = m := by simp [panStep, hj, hp]
          rw [hstep] at h
          obtain ⟨hm, hall⟩ := (ih m).1 h
          exact ⟨hm, by
            intro j2 hj2
            rcases List.mem_cons.1 hj2 with h1 | h1
            · exact h1 ▸ Or.inr hp
            · exact hall j2 h1⟩
        · exfalso
          have hstep : panStep m j =
              panAdd m (pyFloorDiv100 left) (left, j.label, md.1, md.2) := by
            simp [panStep, hj, hp]
          rw [hstep] at h
          exact panAdd_ne_nil _ _ _ ((ih _).1 h).1
    · rintro ⟨hm, hall⟩
      have hskip := hall j (List.mem_cons_self _ _)
      have hstep : panStep m j = m := by
        rcases hskip with h1 | h1
        · simp [panStep, h1]
        · cases hj : j.left <;> simp [panStep, hj, h1]
      rw [hstep]
      exact (ih m).2 ⟨hm, fun j2 hj2 => hall j2 (List.mem_cons_of_mem _ hj2)⟩

lemma panelScore_nonneg (target : PDate) (items : List PanelItem) :
    0 ≤ panelScore target items := Int.natCast_nonneg _

/-- Characterization of the best-panel scan: either no panel beats the
incoming best score and the incoming pair is returned unchanged, or the
result is the first panel attaining the final strict maximum. -/
lemma pickBest_spec (target : PDate) :
    ∀ (l : List (ℤ × List PanelItem)) (best : Option ℤ) (bs : ℤ),
      (pickBest target (best, bs) l = (best, bs) ∧ ∀ q ∈ l, panelScore target q.2 ≤ bs) ∨
      (∃ pre q post, l = pre ++ q :: post ∧
        pickBest target (best, bs) l = (some q.1, panelScore target q.2) ∧
        bs < panelScore target q.2 ∧
        (∀ r ∈ pre, panelScore target r.2 < panelScore target q.2) ∧
        (∀ r ∈ post, panelScore target r.2 ≤ panelScore target q.2)) := by
  intro l
  induction l with
  | nil => intro best bs; left; exact ⟨rfl, by simp⟩
  | cons p t ih =>
    intro best bs
    by_cases hlt : bs < panelScore target p.2
    · have hstep : pickBest target (best, bs) (p :: t) =
          pickBest target (some p.1, panelScore target p.2) t := by
        obtain ⟨pp, its⟩ := p
        simp only [pickBest]
        rw [if_pos hlt]
      rcases ih (some p.1) (panelScore target p.2) with ⟨heq, hall⟩ |
        ⟨pre, q, post, ht, heq, hq, hpre, hpost⟩
      · right
        exact ⟨[], p, t, rfl, by rw [hstep, heq], hlt, by simp, hall⟩
      · right
        refine ⟨p :: pre, q, post, by rw [ht, List.cons_append], by rw [hstep, heq],
          lt_trans hlt hq, ?_, hpost⟩
        intro r hr
        rcases List.mem_cons.1 hr with h1 | h1
        · exact h1 ▸ hq
        · exact hpre r h1
    · have hstep : pickBest target (best, bs) (p :: t) = pickBest target (best, bs) t := by
        obtain ⟨pp, its⟩ := p
        simp only [pickBest]
        rw [if_neg hlt]
      push_neg at hlt
      rcases ih best bs with ⟨heq, hall⟩ | ⟨pre, q, post, ht, heq, hq, hpre, hpost⟩
      · left
        refine ⟨by rw [hstep, heq], ?_⟩
        intro q hqm
        rcases List.mem_cons.1 hqm with h1 | h1
        · exact h1 ▸ hlt
        · exact hall q h1
      · right
        refine ⟨p :: pre, q, post, by rw [ht, List.cons_append], by rw [hstep, heq],
          hq, ?_, hpost⟩
        intro r hr
        rcases List.mem_cons.1 hr with h1 | h1
        · exact h1 ▸ lt_of_le_of_lt hlt hq
        · exact hpre r h1

/-- Panel selection returns none exactly when no day header has both a
parsable offset and a resolvable calendar day. -/
lemma week_panel_none_iff (soup : Soup) (target : PDate) :
    week_panel_index_for_target soup target = none ↔
      ∀ j ∈ soup.jours, j.left = none ∨ parse_day_header_date j.label = none := by
  unfold week_panel_index_for_target
  cases h : panelsOf soup.jours with
  | nil =>
    constructor
    · intro _
      exact ((panFold_nil_iff soup.jours []).1 h).2
    · intro _; rfl
  | cons q rest =>
    constructor
    · intro hres
      exfalso
      have hres2 : (pickBest target (none, -1) (q :: rest)).1 = none := hres
      rcases pickBest_spec target (q :: rest) none (-1) with ⟨heq, hall⟩ |
        ⟨pre, r, post, _, heq, _, _, _⟩
      · have := hall q (List.mem_cons_self _ _)
        have h0 := panelScore_nonneg target q.2
        omega
      · rw [heq] at hres2
        simp at hres2
    · intro hall
      exfalso
      have h2 : panelsOf soup.jours = [] := (panFold_nil_iff soup.jours []).2 ⟨rfl, hall⟩
      rw [h] at h2
      simp at h2

/-- C3: panel selection scores each panel by the intersection of its headers
(month, day) pairs with the target week, returns some panel exactly when a
day header with parsable offset and resolvable date exists, and returns the
first panel (in first-encounter dict order) attaining the strictly maximal
score. -/
theorem c3_select_panel (soup : Soup) (target : PDate) :
    (week_panel_index_for_target soup target = none ↔
      ∀ j ∈ soup.jours, j.left = none ∨ parse_day_header_date j.label = none) ∧
    (∀ p : ℤ, week_panel_index_for_target soup target = some p →
      ∃ pre items post,
        panelsOf soup.jours = pre ++ (p, items) :: post ∧
        (∀ r ∈ pre, panelScore target r.2 < panelScore target items) ∧
        (∀ r ∈ post, panelScore target r.2 ≤ panelScore target items)) := by
  refine ⟨week_panel_none_iff soup target, ?_⟩
  intro p hp
  unfold week_panel_index_for_target at hp
  cases h : panelsOf soup.jours with
  | nil => rw [h] at hp; simp at hp
  | cons q rest =>
    rw [h] at hp
    have hp2 : (pickBest target (none, -1) (q :: rest)).1 = some p := hp
    rcases pickBest_spec target (q :: rest) none (-1) with ⟨heq, hall⟩ |
      ⟨pre, r, post, ht, heq, _, hpre, hpost⟩
    · have := hall q (List.mem_cons_self _ _)
      have h0 := panelScore_nonneg target q.2
      rw [heq] at hp2
      simp at hp2
    · rw [heq] at hp2
      obtain ⟨rp, ritems⟩ := r
      have hrp : rp = p := by simpa using hp2
      subst hrp
      exact ⟨pre, ritems, post, by rw [← ht], hpre, hpost⟩

/-- C3 (witness): the selection theorem evaluated on a document with two
panels, where the second panel matches the target week. -/
theorem c3_select_panel_witness :
    ∃ pre items post,
      panelsOf [⟨some 5, "lundi 15 septembre"⟩, ⟨some 105, "lundi 22 septembre"⟩] =
        pre ++ ((1 : ℤ), items) :: post ∧
      (∀ r ∈ pre, panelScore ⟨2025, 9, 22⟩ r.2 < panelScore ⟨2025, 9, 22⟩ items) ∧
      (∀ r ∈ post, panelScore ⟨2025, 9, 22⟩ r.2 ≤ panelScore ⟨2025, 9, 22⟩ items) := by
  exact (c3_select_panel
    ⟨[⟨some 5, "lundi 15 septembre"⟩, ⟨some 105, "lundi 22 septembre"⟩], []⟩
    ⟨2025, 9, 22⟩).2 1 (by decide)

/-- C5 (counterexample): a document whose only panel has a resolvable day
header sharing no (month, day) pair with the target week: every panel
scores zero, yet the engine still selects panel 0 (best score starts at -1)
and the week contributes a week map, instead of reporting PanelNotFound. -/
theorem c5_counterexample :
    (∀ q ∈ panelsOf [⟨some 5, "lundi 15 septembre"⟩], panelScore ⟨2025, 1, 6⟩ q.2 = 0) ∧
    week_panel_index_for_target ⟨[⟨some 5, "lundi 15 septembre"⟩], []⟩ ⟨2025, 1, 6⟩ = some 0 ∧
    main_week_contribution ⟨[⟨some 5, "lundi 15 septembre"⟩], []⟩ ⟨2025, 1, 6⟩ =
      some [("lundi 15 septembre", [])] := by
  refine ⟨by decide, by decide, by decide⟩

/-- C5 (amended): a week is skipped (empty contribution) exactly when panel
selection returns none, which happens exactly when no day header has a
parsable offset and a resolvable calendar day; a week whose panels all score
zero still selects a panel and contributes its assembled week map. -/
theorem c5_panel_not_found (soup : Soup) (monday : PDate) :
    (main_week_contribution soup monday = none ↔
      week_panel_index_for_target soup monday = none) ∧
    (week_panel_index_for_target soup monday = none ↔
      ∀ j ∈ soup.jours, j.left = none ∨ parse_day_header_date j.label = none) := by
  refine ⟨?_, week_panel_none_iff soup monday⟩
  unfold main_week_contribution
  cases h : week_panel_index_for_target soup monday <;> simp

/-- C5 (witness): the amended characterization evaluated on the zero-score
document of the counterexample. -/
theorem c5_panel_not_found_witness :
    main_week_contribution ⟨[⟨some 5, "lundi 15 septembre"⟩], []⟩ ⟨2025, 1, 6⟩ ≠ none := by
  have h := (c5_panel_not_found ⟨[⟨some 5, "lundi 15 septembre"⟩], []⟩ ⟨2025, 1, 6⟩).1
  intro hnone
  have h2 := h.1 hnone
  have h3 : week_panel_index_for_target ⟨[⟨some 5, "lundi 15 septembre"⟩], []⟩ ⟨2025, 1, 6⟩ =
      some 0 := by decide
  rw [h3] at h2
  simp at h2

lemma digit_toNat_bounds {c : Char} (h : isDigitChar c = true) :
    48 ≤ c.toNat ∧ c.toNat ≤ 57 := by
  have h2 := of_decide_eq_true h
  obtain ⟨h3, h4⟩ := h2
  have h5 : ('0' : Char).toNat ≤ c.toNat := h3
  have h6 : c.toNat ≤ ('9' : Char).toNat := h4
  exact ⟨h5, h6⟩

lemma timeTail_le {hour : Nat} (h : hour ≤ 99) (l : List Char) : timeTail hour l ≤ 99999 := by
  unfold timeTail
  split
  · rename_i m1 m2 tail
    split
    · rename_i hdig
      obtain ⟨hm1, hm2, _⟩ := hdig
      have b3 := digit_toNat_bounds hm1
      have b4 := digit_toNat_bounds hm2
      omega
    · exact le_refl _
  · exact le_refl _

/-- The sort key is at most 99999. -/
lemma time_to_minutes_le (s : String) : _time_to_minutes s ≤ 99999 := by
  unfold _time_to_minutes
  split
  · exact le_refl _
  · split
    · rename_i c1 rest
      split
      · rename_i hd1
        have b1 := digit_toNat_bounds hd1
        split
        · rename_i c2 rest2
          split
          · rename_i hd2
            have b2 := digit_toNat_bounds hd2
            exact timeTail_le (by omega) _
          · exact timeTail_le (by omega) _
        · exact timeTail_le (by omega) _
      · exact le_refl _
    · exact le_refl _

/-- Filter by an exact key value commutes with `orderedInsert` (the inserted
element lands before any equal-key element only in the recursive-insert
orientation, i.e. stability of the sort below). -/
lemma filter_key_orderedInsert {α : Type} (key : α → Nat) (k : Nat) (a : α) (l : List α) :
    List.filter (fun e => key e == k)
        (List.orderedInsert (fun x y => key x ≤ key y) a l) =
      if key a == k then a :: List.filter (fun e => key e == k) l
      else List.filter (fun e => key e == k) l := by
  induction l with
  | nil =>
    simp only [List.orderedInsert]
    by_cases hak : (key a == k) <;> simp [hak]
  | cons b bs ih =>
    simp only [List.orderedInsert]
    split
    · simp only [List.filter_cons]
    · rename_i hnle
      simp only [List.filter_cons, ih]
      by_cases hak : (key a == k)
      · have hbk : ¬ (key b == k) = true := by
          intro hbk
          have h1 : key a = k := by simpa using hak
          have h2 : key b = k := by simpa using hbk
          have h3 : ¬ key a ≤ key b := hnle
          omega
        simp [hak, hbk]
      · by_cases hbk : (key b == k) <;> simp [hak, hbk]

/-- Filter by an exact key value commutes with the stable insertion sort. -/
lemma filter_key_insertionSort {α : Type} (key : α → Nat) (k : Nat) (l : List α) :
    List.filter (fun e => key e == k)
        (List.insertionSort (fun x y => key x ≤ key y) l) =
      List.filter (fun e => key e == k) l := by
  induction l with
  | nil => rfl
  | cons a l ih =>
    simp only [List.insertionSort, filter_key_orderedInsert, ih, List.filter_cons]

/-- C6: every per-day event sequence of the assembled weekly schedule is
sorted ascending by the start-time key; events with unparseable start time
(key 99999) form a suffix; and the sort is stable: for every key value, the
filtered subsequence equals that of the unsorted assembly order. -/
theorem c6_day_sorted (cases : List CaseTag) (hs : List (ℚ × String)) (l : String)
    (evs : List EvDict) (h1 : (l, evs) ∈ build_week_map cases hs) :
    List.Pairwise (fun a b => startKey a ≤ startKey b) evs ∧
    List.Pairwise (fun a b => startKey a = 99999 → startKey b = 99999) evs ∧
    ∃ evs0, (l, evs0) ∈ build_week_map_raw cases hs ∧
      ∀ k : Nat, evs.filter (fun e => startKey e == k) =
        evs0.filter (fun e => startKey e == k) := by
  obtain ⟨⟨l0, evs0⟩, hmem, heq⟩ := List.mem_map.1 h1
  have hl : l0 = l := congrArg Prod.fst heq
  have hevs : evs = List.insertionSort (fun a b => startKey a ≤ startKey b) evs0 :=
    (congrArg Prod.snd heq).symm
  letI : IsTotal EvDict (fun a b => startKey a ≤ startKey b) := ⟨fun a b => Nat.le_total _ _⟩
  letI : IsTrans EvDict (fun a b => startKey a ≤ startKey b) :=
    ⟨fun a b c hab hbc => Nat.le_trans hab hbc⟩
  have hsorted : List.Pairwise (fun a b => startKey a ≤ startKey b) evs := by
    rw [hevs]
    exact List.sorted_insertionSort _ evs0
  refine ⟨hsorted, ?_, ⟨evs0, hl ▸ hmem, ?_⟩⟩
  · refine hsorted.imp ?_
    intro a b hab h99
    exact le_antisymm (time_to_minutes_le _) (h99 ▸ hab)
  · intro k
    rw [hevs]
    exact filter_key_insertionSort startKey k evs0

/-- C6 (witness): the sortedness and stability statement evaluated on a
schedule with an unparseable-time case placed before a parseable one. -/
theorem c6_day_sorted_witness :
    List.Pairwise (fun a b => startKey a ≤ startKey b)
        [case_payload "12:00 - 13:00\nMaths", case_payload "nope"] ∧
    List.Pairwise (fun a b => startKey a = 99999 → startKey b = 99999)
        [case_payload "12:00 - 13:00\nMaths", case_payload "nope"] ∧
    ∃ evs0, ("Lundi", evs0) ∈ build_week_map_raw
        [⟨some 6, "", ["nope"]⟩, ⟨some 7, "", ["12:00 - 13:00", "Maths"]⟩]
        [(0, "Lundi")] ∧
      ∀ k : Nat,
        ([case_payload "12:00 - 13:00\nMaths", case_payload "nope"].filter
          (fun e => startKey e == k)) = evs0.filter (fun e => startKey e == k) := by
  have hbw : build_week_map
      [⟨some 6, "", ["nope"]⟩, ⟨some 7, "", ["12:00 - 13:00", "Maths"]⟩]
      [(0, "Lundi")] =
      [("Lundi", [case_payload "12:00 - 13:00\nMaths", case_payload "nope"])] := by decide
  exact c6_day_sorted
    [⟨some 6, "", ["nope"]⟩, ⟨some 7, "", ["12:00 - 13:00", "Maths"]⟩]
    [(0, "Lundi")] "Lundi"
    [case_payload "12:00 - 13:00\nMaths", case_payload "nope"]
    (by rw [hbw]; exact List.mem_singleton.2 rfl)

lemma head_ne_beq_false {a b : String} (h : a.data.head? ≠ b.data.head?) :
    (a == b) = false := by
  rw [beq_eq_false_iff_ne]
  intro he
  exact h (he ▸ rfl)

lemma head_of_append_lit {r : String} {c : Char} (h : r.data.head? = some c) (t : String) :
    (r ++ t).data.head? = some c := by
  rw [String.data_append, List.head?_append, h]
  rfl

lemma append_ne_vevent {r : String} {c : Char} (h : r.data.head? = some c)
    (hc : c ≠ 'B') (t : String) : ((r ++ t) == "BEGIN:VEVENT") = false := by
  apply head_ne_beq_false
  rw [head_of_append_lit h t]
  intro he
  have hb : ("BEGIN:VEVENT" : String).data.head? = some 'B' := rfl
  rw [hb] at he
  exact hc (Option.some.inj he)

lemma uidLine_append (t : String) (h : 1 ≤ t.data.length) :
    uidLine ("UID:" ++ t) = true := by
  unfold uidLine
  rw [Bool.and_eq_true]
  constructor
  · simp only [List.isPrefixOf_iff_prefix]
    exact ⟨t.data, (String.data_append _ _).symm⟩
  · rw [decide_eq_true_iff]
    rw [String.data_append, List.length_append]
    have h4 : ("UID:" : String).data.length = 4 := rfl
    omega

lemma uidLine_false_of_head {l : String} {c : Char} (h : l.data.head? = some c)
    (hc : c ≠ 'U') : uidLine l = false := by
  unfold uidLine
  cases hp : ("UID:".data.isPrefixOf l.data) with
  | false => simp
  | true =>
    exfalso
    simp only [List.isPrefixOf_iff_prefix] at hp
    obtain ⟨t, ht⟩ := hp
    have h2 : l.data.head? = some 'U' := by rw [← ht]; rfl
    rw [h] at h2
    exact hc (Option.some.inj h2)

lemma uidOfFields_len (a b t l d : String) : 1 ≤ (uidOfFields a b t l d).data.length := by
  unfold uidOfFields
  rw [String.data_append, List.length_append]
  have h10 : ("@edt-wigor" : String).data.length = 10 := rfl
  omega

lemma uidLine_eventUID (day : PDate) (ev : EvDict) :
    uidLine ("UID:" ++ eventUID day ev) = true := by
  apply uidLine_append
  unfold eventUID
  exact uidOfFields_len _ _ _ _ _

lemma eventLines_countP_vevent (ns : String) (day : PDate) (ev : EvDict) :
    (eventLines ns day ev).countP (fun l => l == "BEGIN:VEVENT") = 1 := by
  have h1 := append_ne_vevent (r := "UID:") rfl (by decide) (eventUID day ev)
  have h2 := append_ne_vevent (r := "DTSTAMP:") rfl (by decide) ns
  have h3 := append_ne_vevent (r := "DTSTART;TZID=Europe/Paris:") rfl (by decide) (dtstartStr day ev)
  have h4 := append_ne_vevent (r := "DTEND;TZID=Europe/Paris:") rfl (by decide) (dtendStr day ev)
  have h5 := append_ne_vevent (r := "SUMMARY:") rfl (by decide) (titleStr ev)
  have h6 := append_ne_vevent (r := "LOCATION:") rfl (by decide) (locStr ev)
  have h7 := append_ne_vevent (r := "DESCRIPTION:") rfl (by decide) (descrStr ev)
  have hb : (("BEGIN:VEVENT" : String) == "BEGIN:VEVENT") = true := by decide
  have he : (("END:VEVENT" : String) == "BEGIN:VEVENT") = false := by decide
  simp [eventLines, List.countP_cons, h1, h2, h3, h4, h5, h6, h7, hb, he]

lemma eventLines_filter_uid (ns : String) (day : PDate) (ev : EvDict) :
    (eventLines ns day ev).filter uidLine = ["UID:" ++ eventUID day ev] := by
  have h0 : uidLine "BEGIN:VEVENT" = false := by decide
  have h8 : uidLine "END:VEVENT" = false := by decide
  have h1 := uidLine_eventUID day ev
  have h2 := uidLine_false_of_head (head_of_append_lit (r := "DTSTAMP:") rfl ns) (by decide)
  have h3 := uidLine_false_of_head
    (head_of_append_lit (r := "DTSTART;TZID=Europe/Paris:") rfl (dtstartStr day ev)) (by decide)
  have h4 := uidLine_false_of_head
    (head_of_append_lit (r := "DTEND;TZID=Europe/Paris:") rfl (dtendStr day ev)) (by decide)
  have h5 := uidLine_false_of_head (head_of_append_lit (r := "SUMMARY:") rfl (titleStr ev)) (by decide)
  have h6 := uidLine_false_of_head (head_of_append_lit (r := "LOCATION:") rfl (locStr ev)) (by decide)
  have h7 := uidLine_false_of_head (head_of_append_lit (r := "DESCRIPTION:") rfl (descrStr ev)) (by decide)
  simp [eventLines, List.filter_cons, h0, h1, h2, h3, h4, h5, h6, h7, h8]

lemma icsHeader_filter_uid (cn : String) : (icsHeader cn).filter uidLine = [] := by
  have hpre : icsHeaderPre.filter uidLine = [] := by decide
  have hpost : icsHeaderPost.filter uidLine = [] := by decide
  have hx := uidLine_false_of_head
    (head_of_append_lit (r := "X-WR-CALNAME:") rfl (_ics_escape cn)) (by decide)
  simp [icsHeader, List.filter_append, hpre, hpost, List.filter_cons, hx]

lemma icsHeader_countP_vevent (cn : String) :
    (icsHeader cn).countP (fun l => l == "BEGIN:VEVENT") = 0 := by
  have hpre : icsHeaderPre.countP (fun l => l == "BEGIN:VEVENT") = 0 := by decide
  have hpost : icsHeaderPost.countP (fun l => l == "BEGIN:VEVENT") = 0 := by decide
  have hx := append_ne_vevent (r := "X-WR-CALNAME:") rfl (by decide) (_ics_escape cn)
  simp [icsHeader, List.countP_append, hpre, hpost, List.countP_cons, hx]

lemma icsHeader_countP_uid (cn : String) : (icsHeader cn).countP uidLine = 0 := by
  rw [List.countP_eq_length_filter, icsHeader_filter_uid]
  rfl

lemma countP_eq_sum_ite {α : Type} (p : α → Bool) (l : List α) :
    l.countP p = (l.map fun a => if p a then 1 else 0).sum := by
  induction l with
  | nil => rfl
  | cons a t ih =>
    rw [List.countP_cons, ih]
    simp [Nat.add_comm]

lemma eligible_false_of_skip {ev : EvDict}
    (h : dget ev "start" = "" ∨ dget ev "end" = "") : eligible ev = false := by
  rcases h with h1 | h1 <;> simp [eligible, h1]

lemma eligible_true_of_not_skip {ev : EvDict}
    (h : ¬(dget ev "start" = "" ∨ dget ev "end" = "")) : eligible ev = true := by
  push_neg at h
  simp [eligible, h.1, h.2]

lemma perEvent_countP_vevent (ns : String) (day : PDate) (ev : EvDict) :
    (if dget ev "start" = "" ∨ dget ev "end" = "" then []
      else eventLines ns day ev).countP (fun l => l == "BEGIN:VEVENT") =
      if eligible ev then 1 else 0 := by
  by_cases h : dget ev "start" = "" ∨ dget ev "end" = ""
  · rw [if_pos h, eligible_false_of_skip h]
    simp
  · rw [if_neg h, eligible_true_of_not_skip h]
    simp [eventLines_countP_vevent]

lemma perEvent_countP_uid (ns : String) (day : PDate) (ev : EvDict) :
    (if dget ev "start" = "" ∨ dget ev "end" = "" then []
      else eventLines ns day ev).countP uidLine = if eligible ev then 1 else 0 := by
  by_cases h : dget ev "start" = "" ∨ dget ev "end" = ""
  · rw [if_pos h, eligible_false_of_skip h]
    simp
  · rw [if_neg h, eligible_true_of_not_skip h]
    rw [List.countP_eq_length_filter, eventLines_filter_uid]
    simp

lemma perEvent_filter_uid (ns : String) (day : PDate) (ev : EvDict) :
    (if dget ev "start" = "" ∨ dget ev "end" = "" then []
      else eventLines ns day ev).filter uidLine =
      (if dget ev "start" = "" ∨ dget ev "end" = "" then []
        else ["UID:" ++ eventUID day ev]) := by
  by_cases h : dget ev "start" = "" ∨ dget ev "end" = ""
  · rw [if_pos h, if_pos h]
    rfl
  · rw [if_neg h, if_neg h, eventLines_filter_uid]

lemma export_countP_vevent (weeks : List (PDate × WeekMap)) (cn ns : String) :
    (export_ics_lines weeks cn ns).countP (fun l => l == "BEGIN:VEVENT") =
      eligCount weeks := by
  unfold export_ics_lines
  rw [List.countP_append, List.countP_append, icsHeader_countP_vevent]
  have hend : (["END:VCALENDAR"] : List String).countP (fun l => l == "BEGIN:VEVENT") = 0 := by
    decide
  rw [hend]
  simp only [List.countP_flatten, List.map_map, Nat.add_zero, Nat.zero_add]
  unfold eligCount
  refine congrArg List.sum (List.map_congr_left ?_)
  intro wk _
  simp only [Function.comp, List.countP_flatten, List.map_map]
  refine congrArg List.sum (List.map_congr_left ?_)
  intro de _
  simp only [Function.comp, List.countP_flatten, List.map_map]
  rw [countP_eq_sum_ite eligible de.2]
  refine congrArg List.sum (List.map_congr_left ?_)
  intro ev _
  exact perEvent_countP_vevent ns (date_for_label_in_week de.1 wk.1) ev

lemma export_countP_uid (weeks : List (PDate × WeekMap)) (cn ns : String) :
    (export_ics_lines weeks cn ns).countP uidLine = eligCount weeks := by
  unfold export_ics_lines
  rw [List.countP_append, List.countP_append, icsHeader_countP_uid]
  have hend : (["END:VCALENDAR"] : List String).countP uidLine = 0 := by decide
  rw [hend]
  simp only [List.countP_flatten, List.map_map, Nat.add_zero, Nat.zero_add]
  unfold eligCount
  refine congrArg List.sum (List.map_congr_left ?_)
  intro wk _
  simp only [Function.comp, List.countP_flatten, List.map_map]
  refine congrArg List.sum (List.map_congr_left ?_)
  intro de _
  simp only [Function.comp, List.countP_flatten, List.map_map]
  rw [countP_eq_sum_ite eligible de.2]
  refine congrArg List.sum (List.map_congr_left ?_)
  intro ev _
  exact perEvent_countP_uid ns (date_for_label_in_week de.1 wk.1) ev

lemma export_filter_uid (weeks : List (PDate × WeekMap)) (cn ns : String) :
    (export_ics_lines weeks cn ns).filter uidLine =
      (weeks.map fun wk =>
        (wk.2.map fun de =>
          (de.2.map fun ev =>
            if dget ev "start" = "" ∨ dget ev "end" = "" then []
            else ["UID:" ++ eventUID (date_for_label_in_week de.1 wk.1) ev]).flatten).flatten).flatten := by
  unfold export_ics_lines
  rw [List.filter_append, List.filter_append, icsHeader_filter_uid]
  have hend : (["END:VCALENDAR"] : List String).filter uidLine = [] := by decide
  rw [hend]
  simp only [List.filter_flatten, List.map_map, List.nil_append, List.append_nil]
  refine congrArg List.flatten (List.map_congr_left ?_)
  intro wk _
  simp only [Function.comp, List.filter_flatten, List.map_map]
  refine congrArg List.flatten (List.map_congr_left ?_)
  intro de _
  simp only [Function.comp, List.filter_flatten, List.map_map]
  refine congrArg List.flatten (List.map_congr_left ?_)
  intro ev _
  exact perEvent_filter_uid ns (date_for_label_in_week de.1 wk.1) ev

/-- C2: exporting a multi-week payload emits exactly one `BEGIN:VEVENT` line
per calendar-eligible event (start and end both non-empty); exactly that
many lines are UID lines with a non-empty identifier; the UID lines are
byte-identical across two serializations with different DTSTAMP clock
values; and the UID is a function of the resolved start, end, title,
location and description alone. -/
theorem c2_export_ics (weeks : List (PDate × WeekMap)) (calName ns ns2 : String) :
    ((export_ics_lines weeks calName ns).countP (fun l => l == "BEGIN:VEVENT") =
      eligCount weeks) ∧
    ((export_ics_lines weeks calName ns).countP uidLine = eligCount weeks) ∧
    ((export_ics_lines weeks calName ns).filter uidLine =
      (export_ics_lines weeks calName ns2).filter uidLine) ∧
    (∀ (day day2 : PDate) (ev ev2 : EvDict),
      dtstartStr day ev = dtstartStr day2 ev2 →
      dtendStr day ev = dtendStr day2 ev2 →
      titleStr ev = titleStr ev2 →
      locStr ev = locStr ev2 →
      descrStr ev = descrStr ev2 →
      eventUID day ev = eventUID day2 ev2) := by
  refine ⟨export_countP_vevent weeks calName ns, export_countP_uid weeks calName ns,
    by rw [export_filter_uid, export_filter_uid], ?_⟩
  intro day day2 ev ev2 h1 h2 h3 h4 h5
  unfold eventUID
  rw [h1, h2, h3, h4, h5]

/-- C2 (witness): the export theorem evaluated on the empty payload, and the
UID congruence applied to two events differing only in their raw text. -/
theorem c2_export_ics_witness :
    ((export_ics_lines [] "EDT Wigor" "20250915T000000Z").countP
      (fun l => l == "BEGIN:VEVENT") = eligCount []) ∧
    eventUID ⟨2025, 9, 15⟩
        [("raw", "A"), ("start", "09:00"), ("end", "10:30"), ("room", "B204"),
         ("site", "Site Nord"), ("teacher", "X"), ("title", "Algo")] =
      eventUID ⟨2025, 9, 15⟩
        [("raw", "B"), ("start", "09:00"), ("end", "10:30"), ("room", "B204"),
         ("site", "Site Nord"), ("teacher", "X"), ("title", "Algo")] := by
  constructor
  · exact (c2_export_ics [] "EDT Wigor" "20250915T000000Z" "x").1
  · exact (c2_export_ics [] "EDT Wigor" "20250915T000000Z" "x").2.2.2
      ⟨2025, 9, 15⟩ ⟨2025, 9, 15⟩ _ _ (by decide) (by decide) (by decide) (by decide) (by decide)

lemma clsWs_isSpace {c : Char} (h : clsWs c = true) : pyIsSpace c = true := by
  have h2 : c ∈ [' ', '\t', '\r', '\x0c', '\x0b'] := by
    have h3 := List.contains_iff_exists_mem_beq.1 h
    obtain ⟨a, ha, hb⟩ := h3
    exact (eq_of_beq hb) ▸ ha
  fin_cases h2 <;> decide

lemma clsWs_ne_newline {c : Char} (h : clsWs c = true) : c ≠ '\n' := by
  have h2 : c ∈ [' ', '\t', '\r', '\x0c', '\x0b'] := by
    have h3 := List.contains_iff_exists_mem_beq.1 h
    obtain ⟨a, ha, hb⟩ := h3
    exact (eq_of_beq hb) ▸ ha
  fin_cases h2 <;> decide

lemma newline_isSpace : pyIsSpace '\n' = true := by decide

lemma hasNonWs_collapse (l : List Char) : hasNonWs (collapseWs l) = hasNonWs l := by
  induction l using collapseWs.induct with
  | case1 => rfl
  | case2 c hc =>
    simp [collapseWs, hc, hasNonWs, clsWs_isSpace hc]
    decide
  | case3 c hc => simp [collapseWs, hc]
  | case4 c c2 cs hc hc2 ih =>
    simp only [collapseWs, if_pos hc, if_pos hc2]
    rw [ih]
    simp [hasNonWs, clsWs_isSpace hc]
  | case5 c c2 cs hc hc2 ih =>
    simp only [collapseWs, if_pos hc, if_neg hc2]
    simp only [hasNonWs, List.any_cons] at ih ⊢
    rw [ih]
    have hs : pyIsSpace c = true := clsWs_isSpace hc
    have hs2 : pyIsSpace ' ' = true := by decide
    simp [hs, hs2]
  | case6 c c2 cs hc ih =>
    simp only [collapseWs, if_neg hc]
    simp only [hasNonWs, List.any_cons] at ih ⊢
    rw [ih]

lemma nlAfter_collapse (l : List Char) :
    nlWithNonWsAfter (collapseWs l) = nlWithNonWsAfter l := by
  induction l using collapseWs.induct with
  | case1 => rfl
  | case2 c hc => simp [collapseWs, hc, nlWithNonWsAfter, clsWs_ne_newline hc]
  | case3 c hc => simp [collapseWs, hc]
  | case4 c c2 cs hc hc2 ih =>
    simp only [collapseWs, if_pos hc, if_pos hc2]
    rw [ih]
    simp [nlWithNonWsAfter, clsWs_ne_newline hc]
  | case5 c c2 cs hc hc2 ih =>
    simp only [collapseWs, if_pos hc, if_neg hc2]
    simp only [nlWithNonWsAfter, hasNonWs_collapse, ih]
    have h1 : (' ' : Char) ≠ '\n' := by decide
    have h2 : c ≠ '\n' := clsWs_ne_newline hc
    simp [h1, h2]
  | case6 c c2 cs hc ih =>
    simp only [collapseWs, if_neg hc]
    simp only [nlWithNonWsAfter, hasNonWs_collapse, ih]

lemma nlInterior_collapse (l : List Char) :
    nlInterior (collapseWs l) = nlInterior l := by
  induction l using collapseWs.induct with
  | case1 => rfl
  | case2 c hc =>
    simp [collapseWs, hc, nlInterior, clsWs_isSpace hc]
    decide
  | case3 c hc => simp [collapseWs, hc]
  | case4 c c2 cs hc hc2 ih =>
    simp only [collapseWs, if_pos hc, if_pos hc2]
    rw [ih]
    simp [nlInterior, clsWs_isSpace hc]
  | case5 c c2 cs hc hc2 ih =>
    simp only [collapseWs, if_pos hc, if_neg hc2]
    have hs : pyIsSpace c = true := clsWs_isSpace hc
    have hs2 : pyIsSpace ' ' = true := by decide
    simp only [nlInterior, hs, hs2, if_pos, if_true]
    by_cases h2 : pyIsSpace c2 = true
    · simp only [h2, if_pos, if_true]
      exact ih
    · rw [if_neg (by simp [h2]), if_neg (by simp [h2])]
      exact nlAfter_collapse cs
  | case6 c c2 cs hc ih =>
    simp only [collapseWs, if_neg hc]
    by_cases h2 : pyIsSpace c = true
    · simp only [nlInterior, h2, if_pos, if_true]
      exact ih
    · simp only [nlInterior, if_neg (by simp [h2] : ¬ pyIsSpace c = true)]
      exact nlAfter_collapse (c2 :: cs)

lemma hasNonWs_eq_false_iff {l : List Char} :
    hasNonWs l = false ↔ ∀ c ∈ l, pyIsSpace c = true := by
  simp [hasNonWs, List.any_eq_false]

lemma nlAfter_allws {l : List Char} (h : hasNonWs l = false) : nlWithNonWsAfter l = 0 := by
  induction l with
  | nil => rfl
  | cons c cs ih =>
    simp only [hasNonWs, List.any_cons, Bool.or_eq_false_iff] at h
    have h2 : hasNonWs cs = false := h.2
    simp only [nlWithNonWsAfter, h2]
    rw [ih h2]
    simp

lemma dropWhile_append_of_hasNonWs :
    ∀ (X Y : List Char), hasNonWs X = true →
      (X ++ Y).dropWhile pyIsSpace = X.dropWhile pyIsSpace ++ Y := by
  intro X
  induction X with
  | nil => intro Y h; simp [hasNonWs] at h
  | cons c cs ih =>
    intro Y h
    by_cases hc : pyIsSpace c = true
    · have h2 : hasNonWs cs = true := by
        simp only [hasNonWs, List.any_cons, hc] at h ⊢
        simpa using h
      simp only [List.cons_append, List.dropWhile_cons, hc, if_true]
      exact ih Y h2
    · simp [List.dropWhile_cons, hc]

lemma stripR_cons_of_hasNonWs {cs : List Char} (c : Char) (h : hasNonWs cs = true) :
    pyStripR (c :: cs) = c :: pyStripR cs := by
  unfold pyStripR
  have hrev : hasNonWs cs.reverse = true := by
    simpa [hasNonWs, List.any_reverse] using h
  rw [show (c :: cs).reverse = cs.reverse ++ [c] from by simp]
  rw [dropWhile_append_of_hasNonWs _ _ hrev]
  simp

lemma stripR_allws {l : List Char} (h : hasNonWs l = false) : pyStripR l = [] := by
  unfold pyStripR
  have hnil : l.reverse.dropWhile pyIsSpace = [] := by
    rw [List.dropWhile_eq_nil_iff]
    intro x hx
    exact hasNonWs_eq_false_iff.1 h x (List.mem_reverse.1 hx)
  rw [hnil]
  rfl

lemma countNl_stripR : ∀ l : List Char, (pyStripR l).count '\n' = nlWithNonWsAfter l := by
  intro l
  induction l with
  | nil => rfl
  | cons c cs ih =>
    by_cases h : hasNonWs cs = true
    · rw [stripR_cons_of_hasNonWs c h, List.count_cons, ih]
      simp only [nlWithNonWsAfter, h]
      by_cases hc : c = '\n' <;> simp [hc, Nat.add_comm]
    · have hf : hasNonWs cs = false := by
        revert h
        cases hasNonWs cs <;> simp
      by_cases hc : pyIsSpace c = true
      · have hall : hasNonWs (c :: cs) = false := by
          simp [hasNonWs, List.any_cons, hc, hasNonWs_eq_false_iff.1 hf]
          exact hasNonWs_eq_false_iff.1 hf
        rw [stripR_allws hall]
        simp [nlWithNonWsAfter, hf, nlAfter_allws hf]
      · have hone : pyStripR (c :: cs) = [c] := by
          unfold pyStripR
          rw [show (c :: cs).reverse = cs.reverse ++ [c] from by simp]
          rw [List.dropWhile_append]
          have hnil : cs.reverse.dropWhile pyIsSpace = [] := by
            rw [List.dropWhile_eq_nil_iff]
            intro x hx
            exact hasNonWs_eq_false_iff.1 hf x (List.mem_reverse.1 hx)
          rw [hnil]
          simp [List.dropWhile_cons, hc]
        rw [hone]
        have hcn : c ≠ '\n' := fun he => hc (he ▸ newline_isSpace)
        simp [List.count_cons, hcn, nlWithNonWsAfter, hf, nlAfter_allws hf]

lemma nlAfter_stripL : ∀ u : List Char, nlWithNonWsAfter (pyStripL u) = nlInterior u := by
  intro u
  induction u with
  | nil => rfl
  | cons c cs ih =>
    by_cases hc : pyIsSpace c = true
    · simp only [pyStripL, List.dropWhile_cons, hc, if_true]
      simp only [nlInterior, hc, if_true]
      exact ih
    · simp only [pyStripL, List.dropWhile_cons, hc]
      have hcn : c ≠ '\n' := fun he => hc (he ▸ newline_isSpace)
      simp [nlWithNonWsAfter, nlInterior, hc, hcn]

lemma ws_repl (c : Char) :
    pyIsSpace (if c = '\xa0' then ' ' else c) = pyIsSpace c := by
  by_cases h : c = '\xa0'
  · subst h; decide
  · simp [h]

lemma nl_repl (c : Char) :
    ((if c = '\xa0' then ' ' else c) = '\n') ↔ (c = '\n') := by
  by_cases h : c = '\xa0'
  · subst h; constructor <;> intro he <;> exact absurd he (by decide)
  · simp [h]

lemma hasNonWs_map_repl (l : List Char) :
    hasNonWs (l.map fun c => if c = '\xa0' then ' ' else c) = hasNonWs l := by
  induction l with
  | nil => rfl
  | cons c cs ih => simp [hasNonWs, List.any_cons, ws_repl c, ih, hasNonWs] at ih ⊢; rw [ih]

lemma nlAfter_map_repl (l : List Char) :
    nlWithNonWsAfter (l.map fun c => if c = '\xa0' then ' ' else c) = nlWithNonWsAfter l := by
  induction l with
  | nil => rfl
  | cons c cs ih =>
    simp only [List.map_cons, nlWithNonWsAfter, ih, hasNonWs_map_repl]
    by_cases hc : c = '\n'
    · rw [if_congr (and_congr_left fun _ => nl_repl c) rfl rfl]
    · rw [if_congr (and_congr_left fun _ => nl_repl c) rfl rfl]

lemma nlInterior_map_repl (l : List Char) :
    nlInterior (l.map fun c => if c = '\xa0' then ' ' else c) = nlInterior l := by
  induction l with
  | nil => rfl
  | cons c cs ih =>
    simp only [List.map_cons, nlInterior, ws_repl c]
    by_cases hc : pyIsSpace c = true
    · simp only [hc, if_true]
      exact ih
    · simp only [if_neg (by simp [hc] : ¬ pyIsSpace c = true)]
      exact nlAfter_map_repl cs

/-- C10: the text normalizer preserves interior newlines — the cleaned text
contains exactly the newlines of the input that have non-whitespace material
both before and after them (runs of space/tab/CR/FF/VT collapse to single
spaces, non-breaking spaces become spaces, and only the two stripped ends
can remove a newline) — and the raw field of a parsed case is exactly the
normalized flattened text, so it keeps its line structure. -/
theorem c10_text_clean_newlines :
    (∀ s : String, (text_clean s).data.count '\n' = nlInterior s.data) ∧
    (∀ txt : String, dget (case_payload txt) "raw" = text_clean txt) := by
  constructor
  · intro s
    show (pyStripList (collapseWs (s.data.map fun c => if c = '\xa0' then ' ' else c))).count '\n' = _
    unfold pyStripList
    rw [countNl_stripR, nlAfter_stripL, nlInterior_collapse, nlInterior_map_repl]
  · intro txt
    rfl

end EDT
